import Mathlib

set_option autoImplicit false

/-!
Verification of the space-data-project core against its specification.

Two subsystems are embedded shallowly, straight from the Python source:

* `LDPC` — the LDPC error-correction engine of
  `src/fault_tolerance/ldpc_error_correction.py`: matrix generation
  (`_generate_ldpc_matrices`), encoding (`encode`), bit-flipping decoding
  (`_decode_block`, `decode`), and the adaptation controller
  (`_adapt_code_parameters`, `_switch_to_mode`).
* `Sched` — the priority message scheduler of
  `src/messaging/priority_scheduler.py`: admission (`add_message`,
  `_add_message_internal`), preemption (`_make_room_for_priority`), the
  expiry sweep (`_cleanup_expired_messages`) and dispatch
  (`_process_next_message`, `_process_single_message`).

Modelling conventions, recorded once here:

* bits are `Nat` values 0/1, bit strings are `List Nat`; all GF(2)
  arithmetic is explicit `% 2` on `Nat`;
* Python floats (code rates, the syndrome threshold, the flip threshold
  `mean + std`) are modelled as exact rationals; the one float comparison
  that mixes a square root, `sqrt(count) < threshold` and
  `votes > mean + std`, is rewritten into the equivalent exact integer
  inequalities (squaring both sides), so no real numbers are needed;
* `np.random` draws (the H rows of `_generate_ldpc_matrices`, the sparse P
  block) are universally quantified: a predicate `IsLDPCOutput` describes
  exactly the set of matrices the generator can emit, and matrix requests
  go through an oracle `gen`;
* the MD5 digest is modelled as the digested bit string itself (digest
  equality stands for bit-string equality; MD5 collisions are out of
  scope);
* wall-clock timeout checks are modelled by a Boolean oracle indexed by
  the loop position at which `time.time() - start_time > timeout_seconds`
  is evaluated;
* timing fields of results/metadata (`decoding_time_ms`,
  `encoding_time_ms`) and log output are not modelled; no claim concerns
  them.
-/

namespace LDPC

/-- Dot product of two bit strings (the GF(2) reduction `% 2` is applied by
the callers, as in the source, which reduces whole matrix products). -/
def dot (xs ys : List Nat) : Nat :=
  (List.zipWith (· * ·) xs ys).sum

/-- Syndrome `H · r mod 2` (line 816: `(H @ received_block) % 2`); `H` is a
list of rows. -/
def syndrome (H : List (List Nat)) (r : List Nat) : List Nat :=
  H.map (fun row => dot row r % 2)

/-- Column `j` of a row-major matrix. -/
def col (G : List (List Nat)) (j : Nat) : List Nat :=
  G.map (fun row => row.getD j 0)

/-- Row vector times matrix over GF(2): `(block @ G) % 2` (line 566); `n` is
the codeword length (the width of G). -/
def encodeBlock (G : List (List Nat)) (n : Nat) (b : List Nat) : List Nat :=
  (List.range n).map (fun j => dot b (col G j) % 2)

/-- Information-bit count `k = int(block_length * code_rate)` (line 354):
`int()` truncates toward zero, and `r·n = (r.num · n) / r.den` exactly, so
the truncated quotient `Int.tdiv` computes it exactly. -/
def kOf (r : ℚ) (n : Nat) : Nat :=
  (Int.tdiv (r.num * n) r.den).toNat

/-- Per-check-row weight `max(3, int(np.sqrt(n) / 2))` (line 371).
`⌊√n / 2⌋ = ⌊⌊√n⌋ / 2⌋`, so `Nat.sqrt` is exact here. -/
def rowWeight (n : Nat) : Nat :=
  Nat.max 3 (Nat.sqrt n / 2)

/-- A parity-check row from a chosen column-index set: entries 1 at the
chosen columns, 0 elsewhere (lines 379-391). -/
def mkRow (n : Nat) (cols : List Nat) : List Nat :=
  (List.range n).map (fun j => if j ∈ cols then 1 else 0)

/-- Parity-check matrix H from the per-row column choices (lines 375-391). -/
def mkH (n : Nat) (choices : List (List Nat)) : List (List Nat) :=
  choices.map (mkRow n)

/-- Generator matrix `G = [I_k | P]` (lines 393-401): row `i` is the `i`-th
identity row of length `k` followed by row `i` of `P`. -/
def mkG (k : Nat) (P : List (List Nat)) : List (List Nat) :=
  (List.range k).map (fun i =>
    ((List.range k).map (fun j => if j = i then 1 else 0)) ++ P.getD i [])

/-- The column choices `np.random.choice(n, size=row_weight, replace=False)`
can produce for each of the `m` rows: distinct indices below `n`,
`rowWeight n` of them per row (line 381). -/
def ValidChoices (n m : Nat) (choices : List (List Nat)) : Prop :=
  choices.length = m ∧
    ∀ cols ∈ choices, cols.Nodup ∧ cols.length = rowWeight n ∧ ∀ c ∈ cols, c < n

/-- The parity blocks `sp.random(k, m, density=0.1) … % 2` can produce: a
`k × m` matrix of 0/1 entries (lines 398-399; the ≈10% density is a random
target, so any binary matrix of that shape is admitted — including the
all-zero one, which is what the uint8 cast actually yields at runtime). -/
def ValidP (k m : Nat) (P : List (List Nat)) : Prop :=
  P.length = k ∧ ∀ row ∈ P, row.length = m ∧ ∀ x ∈ row, x = 0 ∨ x = 1

/-- The exact set of matrix pairs `_generate_ldpc_matrices(code_rate,
block_length)` can return, over all random draws (lines 336-412). -/
def IsLDPCOutput (r : ℚ) (n : Nat) (G H : List (List Nat)) : Prop :=
  ∃ choices P,
    ValidChoices n (n - kOf r n) choices ∧
    ValidP (kOf r n) (n - kOf r n) P ∧
    H = mkH n choices ∧ G = mkG (kOf r n) P

/-- LDPC code parameters (`CodeParameters`, lines 60-82). -/
structure CodeParameters where
  codeRate : ℚ
  blockLength : Nat
  maxIterations : Nat
  syndromeThreshold : ℚ
deriving DecidableEq

/-- The `__post_init__` validation of `CodeParameters` (lines 75-82). -/
def ValidCodeParameters (p : CodeParameters) : Prop :=
  0 < p.codeRate ∧ p.codeRate < 1 ∧ 0 < p.blockLength ∧ 0 < p.maxIterations

/-- Number of unsatisfied parity checks; syndrome entries are 0/1, so this
is also the squared Euclidean norm of the syndrome (line 817). -/
def unsatCount (H : List (List Nat)) (r : List Nat) : Nat :=
  (syndrome H r).sum

/-- Convergence test `np.linalg.norm(syndrome) < syndrome_threshold`
(line 819): with `c` unsatisfied checks the norm is `√c`, and
`√c < t ↔ 0 < t ∧ c < t²`; over `t = t.num / t.den` with `t.den > 0` that
is `0 < t.num ∧ c · t.den² < t.num²`, exact integer arithmetic. -/
def convergedB (t : ℚ) (c : Nat) : Bool :=
  decide (0 < t.num) &&
    decide ((c : Int) * ((t.den : Int) * (t.den : Int)) < t.num * t.num)

/-- Error votes (lines 827-838): position `j` is voted for once by every
parity row that is unsatisfied and has a nonzero entry at `j`. -/
def votes (H : List (List Nat)) (r : List Nat) : List Nat :=
  (List.range r.length).map (fun j =>
    (H.filter (fun row => dot row r % 2 == 1)).countP (fun row => row.getD j 0 != 0))

/-- Positions with `votes > mean(votes) + std(votes)` (lines 841-842),
rewritten into exact integer arithmetic: with `S = Σv`, `Q = Σv²` and `n`
positions, `v > S/n + √(Q/n - (S/n)²) ↔ n·v > S ∧ (n·v - S)² > n·Q - S²`. -/
def flipPositions (H : List (List Nat)) (r : List Nat) : List Nat :=
  let v := votes H r
  let n : Int := Int.ofNat r.length
  let S : Int := Int.ofNat v.sum
  let Q : Int := Int.ofNat ((v.map (fun x => x * x)).sum)
  (List.range r.length).filter (fun j =>
    let vj : Int := Int.ofNat (v.getD j 0)
    decide (n * vj > S) && decide ((n * vj - S) * (n * vj - S) > n * Q - S * S))

/-- Flip the listed positions (line 846). -/
def applyFlips (fp : List Nat) (r : List Nat) : List Nat :=
  r.mapIdx (fun j x => if j ∈ fp then 1 - x else x)

/-- Synthetic error-position list returned on non-convergence (line 853):
`range(min(10, len(received_block)))`. -/
def syntheticErrors (r : List Nat) : List Nat :=
  List.range (Nat.min 10 r.length)

/-- The iteration loop of `_decode_block` (lines 814-849), with `fuel` the
iterations still allowed; the reported iteration count is `iteration + 1`
on convergence and `max_iterations` otherwise (lines 823, 855).
Returns (decoded block, iterations, converged, error positions). -/
def decodeBlockGo (H : List (List Nat)) (k maxIter : Nat) (t : ℚ) :
    Nat → List Nat → List Nat × Nat × Bool × List Nat
  | 0, r => (r.take k, maxIter, false, syntheticErrors r)
  | fuel + 1, r =>
    if convergedB t (unsatCount H r) then (r.take k, maxIter - fuel, true, [])
    else
      let fp := flipPositions H r
      if fp.isEmpty then (r.take k, maxIter, false, syntheticErrors r)
      else decodeBlockGo H k maxIter t fuel (applyFlips fp r)

/-- `_decode_block` (lines 791-861) on a received block `r`. -/
def decodeBlock (H : List (List Nat)) (k maxIter : Nat) (t : ℚ) (r : List Nat) :
    List Nat × Nat × Bool × List Nat :=
  decodeBlockGo H k maxIter t maxIter r

/-- Error-correction modes (`ErrorCorrectionMode`, lines 44-49). -/
inductive ECMode
  | standard
  | highRedundancy
  | fast
  | adaptive
deriving DecidableEq

/-- Channel conditions (`ChannelCondition`, lines 52-57). -/
inductive ChannelCond
  | excellent
  | good
  | poor
  | severe
deriving DecidableEq

/-- The `(code_rate, block_length)` table of `_switch_to_mode`
(lines 486-491); every mode maps to block length 1024. -/
def modeParams : ECMode → ℚ × Nat
  | .fast => (mkRat 3 4, 1024)
  | .standard => (mkRat 1 2, 1024)
  | .highRedundancy => (mkRat 33 100, 1024)
  | .adaptive => (mkRat 1 2, 1024)

/-- Mode selected for a channel condition (`_adapt_code_parameters`,
lines 460-467). -/
def modeForCond : ChannelCond → ECMode
  | .excellent => .fast
  | .good => .standard
  | .poor => .highRedundancy
  | .severe => .highRedundancy

/-- Encoding metadata (lines 581-590).  Fields are optional because
`decode` treats each key as possibly absent (`metadata.get`, lines
643-650, 714).  The MD5 `checksum` over the padded input is modelled as
the padded bit string itself. -/
structure EncodedBlockMeta where
  originalLength : Option Nat
  codeRate : Option ℚ
  blockLength : Option Nat
  paddingBits : Option Nat
  checksum : Option (List Nat)
deriving DecidableEq

/-- Decoding result (`DecodingResult`, lines 85-108); the wall-clock
`decoding_time_ms` and the float `syndrome_norm` are not modelled (no
claim concerns them). -/
structure DecodingResult where
  success : Bool
  correctedData : Option (List Nat)
  iterationsUsed : Nat
  errorPositions : List Nat
  bitErrorRate : ℚ

/-- A cached or generated matrix pair (G, H). -/
abbrev MatPair : Type := List (List Nat) × List (List Nat)

/-- The mutable state of `LDPCEncoder` that the claims touch (lines
294-328): active parameters, adaptive-mode flags, memory limit, current
mode, the matrix cache (most recently used first, mirroring the
`_cache_access_times` bookkeeping) and the failure tracking. -/
structure EncoderState where
  codeParams : CodeParameters
  enableAdaptiveMode : Bool
  enableTracking : Bool
  memoryLimitBytes : Nat
  currentMode : ECMode
  cache : List ((ℚ × Nat) × MatPair)
  consecutiveFailures : Nat
  degradedMode : Bool

/-- `_switch_to_mode` (lines 484-505): the new `CodeParameters` take the
mode table rate AND the mode table block length (always 1024), keep
`max_iterations` and `syndrome_threshold`, and the matrix cache is
cleared. -/
def switchToMode (st : EncoderState) (mode : ECMode) : EncoderState :=
  { st with
    codeParams :=
      { codeRate := (modeParams mode).1
        blockLength := (modeParams mode).2
        maxIterations := st.codeParams.maxIterations
        syndromeThreshold := st.codeParams.syndromeThreshold }
    cache := [] }

/-- `_adapt_code_parameters` (lines 449-482); the performance tracker's
current channel condition is an input. -/
def adaptCodeParameters (st : EncoderState) (cond : ChannelCond) : EncoderState :=
  if st.enableAdaptiveMode && st.enableTracking then
    let newMode := modeForCond cond
    if newMode ≠ st.currentMode then
      { switchToMode st newMode with currentMode := newMode }
    else st
  else st

/-- `_get_matrices` (lines 414-447) with the random generation behind the
oracle `gen`; `.error` is the `MemoryError` raised when the estimated
`8·(n·k + n·m)` bytes exceed the memory limit (lines 358-364).  On a hit
the entry moves to the front (access-time update); on a miss the new pair
is inserted and, at capacity 5, the least recently used entry dropped. -/
def getMatrices (st : EncoderState) (gen : ℚ → Nat → MatPair) :
    Except Unit (MatPair × EncoderState) :=
  let key := (st.codeParams.codeRate, st.codeParams.blockLength)
  match st.cache.find? (fun e => decide (e.1 = key)) with
  | some e =>
    .ok (e.2, { st with cache := e :: st.cache.filter (fun x => !decide (x.1 = key)) })
  | none =>
    let n := st.codeParams.blockLength
    let k := kOf st.codeParams.codeRate n
    let m := n - k
    if (n * k + n * m) * 8 > st.memoryLimitBytes then .error ()
    else
      let gh := gen st.codeParams.codeRate n
      if st.cache.length < 5 then .ok (gh, { st with cache := (key, gh) :: st.cache })
      else .ok (gh, { st with cache := (key, gh) :: st.cache.dropLast })

/-- Failure bookkeeping of `encode`'s exception path (lines 606-612). -/
def encFail (st : EncoderState) : EncoderState :=
  { st with
    consecutiveFailures := st.consecutiveFailures + 1
    degradedMode := if st.consecutiveFailures + 1 > 5 then true else st.degradedMode }

/-- Failure bookkeeping of `decode`'s exception path (lines 770-776). -/
def decFail (st : EncoderState) : EncoderState :=
  { st with
    consecutiveFailures := st.consecutiveFailures + 1
    degradedMode := if st.consecutiveFailures + 1 > 3 then true else st.degradedMode }

/-- Errors `encode` raises to its caller (lines 521-524, 540, 544, 571). -/
inductive EncodeError
  | invalidInput
  | timedOut
  | outOfBudget
deriving DecidableEq

/-- Zero-pad a block to length `n` (lines 680-685). -/
def padTo (n : Nat) (l : List Nat) : List Nat :=
  l ++ List.replicate (n - l.length) 0

/-- Number of `n`-sized chunks the block loops make over a `len`-bit
stream: `⌈len / n⌉` (lines 562, 673). -/
def numBlocksOf (n len : Nat) : Nat :=
  (len + n - 1) / n

/-- The block length `decode` works with: from the metadata when present,
else the active parameters (line 649). -/
def effBlockLen (st : EncoderState) (meta : EncodedBlockMeta) : Nat :=
  meta.blockLength.getD st.codeParams.blockLength

/-- `encode` (lines 507-615).  `cond` is the channel condition the
adaptation step reads; `timeoutAt b` is whether the wall clock has passed
`timeout_seconds` when the check after block `b` runs (line 570).
Unlike `decode`, `encode` re-raises its errors (line 615). -/
def encode (st : EncoderState) (gen : ℚ → Nat → MatPair) (cond : ChannelCond)
    (bits : List Nat) (timeoutAt : Nat → Bool) :
    Except EncodeError (List Nat × EncodedBlockMeta) × EncoderState :=
  let st1 := adaptCodeParameters st cond
  if !(bits.all (fun b => b == 0 || b == 1)) then (.error .invalidInput, encFail st1)
  else
    match getMatrices st1 gen with
    | .error _ => (.error .outOfBudget, encFail st1)
    | .ok (gh, st2) =>
      let k := kOf st2.codeParams.codeRate st2.codeParams.blockLength
      let n := st2.codeParams.blockLength
      if k = 0 then (.error .invalidInput, encFail st2)
      else
        let padding := (k - bits.length % k) % k
        let padded := bits ++ List.replicate padding 0
        let nb := padded.length / k
        match (List.range nb).find? timeoutAt with
        | some _ => (.error .timedOut, encFail st2)
        | none =>
          let encoded := ((List.range nb).map (fun b =>
            encodeBlock gh.1 n ((padded.drop (b * k)).take k))).flatten
          (.ok (encoded,
            { originalLength := some bits.length
              codeRate := some st2.codeParams.codeRate
              blockLength := some n
              paddingBits := some padding
              checksum := some padded }), st2)

/-- The failed `DecodingResult` built by `decode`'s exception handler
(lines 779-783). -/
def failedResult : DecodingResult :=
  { success := false
    correctedData := none
    iterationsUsed := 0
    errorPositions := []
    bitErrorRate := 1 }

/-- The block loop and result assembly of `decode` (lines 667-742), as
one function of the effective parameters: decode every `n`-chunk, strip
the padding, truncate to the original length, and declare success from
the digest comparison (line 713-725; success is set from the digest
ALONE — non-converged blocks do not force failure). -/
def decodeBlocksResult (H : List (List Nat)) (k n maxIter : Nat) (t : ℚ)
    (encoded : List Nat) (origLen padBits : Nat) (checksum : Option (List Nat)) :
    DecodingResult :=
  let nb := numBlocksOf n encoded.length
  let blockResults := (List.range nb).map (fun b =>
    (b, decodeBlock H k maxIter t (padTo n ((encoded.drop (b * n)).take n))))
  let decodedRaw := (blockResults.map (fun br => br.2.1)).flatten
  let afterPad :=
    if padBits > 0 then decodedRaw.take (decodedRaw.length - padBits)
    else decodedRaw
  let decoded := afterPad.take origLen
  let errPositions := (blockResults.map (fun br =>
    br.2.2.2.2.map (fun pos => pos + br.1 * n * k))).flatten
  { success :=
      match checksum with
      | none => true
      | some cs => decide (decoded ++ List.replicate padBits 0 = cs)
    correctedData := some decoded
    iterationsUsed := (blockResults.map (fun br => br.2.2.1)).sum
    errorPositions := errPositions
    bitErrorRate := mkRat errPositions.length (Nat.max encoded.length 1) }

/-- `decode` (lines 617-789).  Every branch returns a `DecodingResult`:
the `except Exception` handler at line 770 converts the internal
`ValueError` (missing `original_length`, line 644), the invalid
metadata-parameter `ValueError` of the `CodeParameters` constructor (line
654), the `MemoryError` from matrix generation and the
`asyncio.TimeoutError` (line 675) into the failed result, and the
`finally` at line 766 restores the caller's `code_params` after the
temporary substitution of lines 652-659.  `timeoutAt b` is the
wall-clock check at the top of block `b`. -/
def decode (st : EncoderState) (gen : ℚ → Nat → MatPair) (encoded : List Nat)
    (meta : EncodedBlockMeta) (timeoutAt : Nat → Bool) :
    DecodingResult × EncoderState :=
  match meta.originalLength with
  | none => (failedResult, decFail st)
  | some origLen =>
    let rate := meta.codeRate.getD st.codeParams.codeRate
    let blockLen := effBlockLen st meta
    let padBits := meta.paddingBits.getD 0
    if !(decide (0 < rate.num) && decide (rate.num < (rate.den : Int)) &&
        decide (0 < blockLen) && decide (0 < st.codeParams.maxIterations)) then
      (failedResult, decFail st)
    else
      let orig := st.codeParams
      let stSub := { st with codeParams :=
        { codeRate := rate
          blockLength := blockLen
          maxIterations := orig.maxIterations
          syndromeThreshold := orig.syndromeThreshold } }
      match getMatrices stSub gen with
      | .error _ => (failedResult, decFail { stSub with codeParams := orig })
      | .ok (gh, stM) =>
        let stR := { stM with codeParams := orig }
        match (List.range (numBlocksOf blockLen encoded.length)).find? timeoutAt with
        | some _ => (failedResult, decFail stR)
        | none =>
          let result := decodeBlocksResult gh.2 (kOf rate blockLen) blockLen
            orig.maxIterations orig.syndromeThreshold encoded origLen padBits
            meta.checksum
          if result.success then
            (result, { stR with consecutiveFailures := 0, degradedMode := false })
          else (result, stR)

/-- Valid code parameters: rate 1/2, block length 8, the defaults for the
iteration cap and threshold (lines 296-301 use 0.5/1024/50/1e-6; the block
length is scaled down so that witnesses evaluate). -/
def exParams : CodeParameters :=
  { codeRate := mkRat 1 2
    blockLength := 8
    maxIterations := 50
    syndromeThreshold := mkRat 1 1000000 }

/-- A freshly constructed encoder around `exParams`, adaptation off
(lines 276-328 with `enable_adaptive_mode=False`). -/
def exState : EncoderState :=
  { codeParams := exParams
    enableAdaptiveMode := false
    enableTracking := false
    memoryLimitBytes := 268435456
    currentMode := .standard
    cache := []
    consecutiveFailures := 0
    degradedMode := false }

/-- The same encoder with `max_iterations = 1` (a valid `CodeParameters`
value: the validation only requires it positive). -/
def exState7 : EncoderState :=
  { exState with codeParams := { exParams with maxIterations := 1 } }

/-- An encoder configured with block length 512 and adaptation on, in
STANDARD mode (for the mode-switch claim). -/
def exSwitchState : EncoderState :=
  { exState with
      codeParams := { exParams with blockLength := 512 }
      enableAdaptiveMode := true
      enableTracking := true }

/-- A possible draw of the per-row column choices for `m = 4` rows with
`rowWeight 8 = 3`: row 0 checks columns 0,1,2, rows 1-3 check 5,6,7. -/
def exChoices : List (List Nat) :=
  [[0, 1, 2], [5, 6, 7], [5, 6, 7], [5, 6, 7]]

/-- The parity block the uint8-cast `sp.random` actually produces: all
zeros (a valid ≈10%-density draw). -/
def exP : List (List Nat) :=
  List.replicate 4 (List.replicate 4 0)

/-- The generator matrix `[I_4 | exP]` of that draw. -/
def exG : List (List Nat) := mkG 4 exP

/-- The parity-check matrix of that draw. -/
def exH : List (List Nat) := mkH 8 exChoices

/-- A matrix oracle returning that draw. -/
def exGen : ℚ → Nat → MatPair := fun _ _ => (exG, exH)

/-- A clock oracle that never reports a timeout. -/
def exNoTimeout : Nat → Bool := fun _ => false

/-- The metadata `encode` emits for the 4-bit message `1000` at rate 1/2,
block length 8 (no padding; digest of the padded input). -/
def exMeta : EncodedBlockMeta :=
  { originalLength := some 4
    codeRate := some (mkRat 1 2)
    blockLength := some 8
    paddingBits := some 0
    checksum := some [1, 0, 0, 0] }

/-- The codeword `encode` emits for the two-block message `10001000`. -/
def exCode7 : List Nat :=
  [1, 0, 0, 0, 0, 0, 0, 0, 1, 0, 0, 0, 0, 0, 0, 0]

/-- The metadata `encode` emits for that two-block message. -/
def exMeta7 : EncodedBlockMeta :=
  { originalLength := some 8
    codeRate := some (mkRat 1 2)
    blockLength := some 8
    paddingBits := some 0
    checksum := some [1, 0, 0, 0, 1, 0, 0, 0] }

/-- Metadata with the `original_length` key missing. -/
def exMetaNone : EncodedBlockMeta :=
  { originalLength := none
    codeRate := none
    blockLength := none
    paddingBits := none
    checksum := none }

end LDPC

namespace Sched

/-- Message priorities (`MessagePriority`, lines 43-52). -/
inductive MsgPriority
  | critical
  | high
  | medium
  | low
deriving DecidableEq

/-- The enum value: larger means higher priority. -/
def MsgPriority.val : MsgPriority → Nat
  | .critical => 3
  | .high => 2
  | .medium => 1
  | .low => 0

/-- Whether admission lets the class preempt: `priority in [CRITICAL, HIGH]`
(lines 499, 532). -/
def MsgPriority.isHighClass : MsgPriority → Bool
  | .critical => true
  | .high => true
  | .medium => false
  | .low => false

/-- Message statuses (`MessageStatus`, lines 55-62). -/
inductive MsgStatus
  | queued
  | processing
  | completed
  | failed
  | timeout
  | dropped
deriving DecidableEq

/-- Terminal statuses per the spec data model (§3): COMPLETED, FAILED,
TIMEOUT, DROPPED. -/
def MsgStatus.isTerminal : MsgStatus → Bool
  | .queued => false
  | .processing => false
  | .completed => true
  | .failed => true
  | .timeout => true
  | .dropped => true

/-- The immutable fields of a queued message that ordering, expiry and
identity read: `message_id`, `priority`, `creation_timestamp` (a tick
count stands for the UTC instant), optional `deadline_timestamp`. -/
structure QEntry where
  mid : String
  prio : MsgPriority
  createdAt : Nat
  deadline : Option Nat
deriving DecidableEq

/-- A message as the producer hands it to `add_message` (lines 98-135);
the mutable `status` field starts at its dataclass default QUEUED. -/
structure Msg where
  messageId : String
  priority : MsgPriority
  bandwidthRequired : Int
  createdAt : Nat
  deadline : Option Nat
  status : MsgStatus
deriving DecidableEq

/-- The queue entry of a message. -/
def Msg.entry (m : Msg) : QEntry :=
  ⟨m.messageId, m.priority, m.createdAt, m.deadline⟩

/-- `Message.__lt__` (lines 137-145): higher priority value first, then
earlier `creation_timestamp`. -/
def qLt (x y : QEntry) : Bool :=
  decide (y.prio.val < x.prio.val) ||
    (decide (x.prio.val = y.prio.val) && decide (x.createdAt < y.createdAt))

/-- Extraction of a `__lt__`-minimal element, the contract of
`heapq.heappop` ("pop and return the smallest item"): the returned entry
is minimal under `qLt` and the remainder is the list with that one entry
removed.  The internal array order of the Python heap is not observable
through pops, so the queue is modelled as a plain list. -/
def popMin : List QEntry → Option (QEntry × List QEntry)
  | [] => none
  | a :: rest =>
    match popMin rest with
    | none => some (a, [])
    | some (b, rest2) => if qLt b a then some (b, a :: rest2) else some (a, rest)

/-- Scheduler state (`MessageScheduler.__init__`, lines 326-413): the four
class queues, the per-object message statuses (an association list stands
for the shared mutable `Message.status` fields, newest entry first), the
active-message index `_active_messages` (keyed by id; the list holds the
keys), the per-class capacity and the degraded-mode flag.  The bounded
history ring and the metrics are not modelled; no claim concerns them. -/
structure SchedState where
  queues : MsgPriority → List QEntry
  statuses : List (String × MsgStatus)
  active : List String
  maxQueueSize : Nat
  degraded : Bool

/-- Status write `message.update_status(st)` for the message with id
`mid` (newest binding shadows older ones). -/
def setStatus (mid : String) (st : MsgStatus) (l : List (String × MsgStatus)) :
    List (String × MsgStatus) :=
  (mid, st) :: l

/-- Current status of the message with id `mid`. -/
def lookupStatus (l : List (String × MsgStatus)) (mid : String) : Option MsgStatus :=
  (l.find? (fun e => e.1 == mid)).map (fun e => e.2)

/-- Replace the queue of class `p`. -/
def updateQ (p : MsgPriority) (q : List QEntry) (f : MsgPriority → List QEntry) :
    MsgPriority → List QEntry :=
  fun p2 => if p2 = p then q else f p2

/-- `Message.is_expired` (lines 165-169): a deadline is set and strictly
in the past. -/
def isExpired (now : Nat) (e : QEntry) : Bool :=
  match e.deadline with
  | some d => decide (d < now)
  | none => false

/-- `_cleanup_expired_messages` (lines 555-580): expired entries are
marked TIMEOUT, removed from the active index, and the queue is rebuilt
from the surviving entries; when nothing expired the state is untouched.
Returns the removed count. -/
def sweepExpired (now : Nat) (p : MsgPriority) (s : SchedState) : SchedState × Nat :=
  let q := s.queues p
  let expired := q.filter (isExpired now)
  if expired.isEmpty then (s, 0)
  else
    ({ s with
        queues := updateQ p (q.filter (fun e => !isExpired now e)) s.queues
        statuses := expired.foldl (fun acc e => setStatus e.mid .timeout acc) s.statuses
        active := s.active.filter (fun mid => !expired.any (fun e => e.mid == mid)) },
      expired.length)

/-- The classes `_make_room_for_priority` scans, in its iteration order
`reversed(list(MessagePriority))` restricted to strictly lower values
(lines 585-587). -/
def lowerPriosBelow (p : MsgPriority) : List MsgPriority :=
  [.low, .medium, .high, .critical].filter (fun q => decide (q.val < p.val))

/-- The scan of `_make_room_for_priority` (lines 582-605): the first
non-empty candidate queue loses its `heappop` minimum, which is marked
DROPPED and removed from the active index. -/
def makeRoomGo (s : SchedState) : List MsgPriority → SchedState × Bool
  | [] => (s, false)
  | q :: qs =>
    match popMin (s.queues q) with
    | none => makeRoomGo s qs
    | some (e, rest) =>
      ({ s with
          queues := updateQ q rest s.queues
          statuses := setStatus e.mid .dropped s.statuses
          active := s.active.filter (fun mid => !(mid == e.mid)) }, true)

/-- `_make_room_for_priority(priority)` (lines 582-605). -/
def makeRoom (p : MsgPriority) (s : SchedState) : SchedState × Bool :=
  makeRoomGo s (lowerPriosBelow p)

/-- The final enqueue of `_add_message_internal` (lines 543-553): push the
entry, record the message (status as constructed) and index it. -/
def pushMsg (m : Msg) (s : SchedState) : SchedState :=
  { s with
      queues := updateQ m.priority (m.entry :: s.queues m.priority) s.queues
      statuses := setStatus m.messageId m.status s.statuses
      active := m.messageId :: s.active }

/-- `_add_message_internal` (lines 518-553).  At capacity it sweeps the
target class; if still at capacity a CRITICAL/HIGH message triggers
`_make_room_for_priority` and is then pushed unconditionally (the code
never re-checks the target queue), while any other class is rejected
(the incoming message is marked DROPPED on the caller's side; it never
entered the scheduler state, so only the Boolean records it here). -/
def addMessageInternal (now : Nat) (m : Msg) (s : SchedState) : SchedState × Bool :=
  if s.maxQueueSize ≤ (s.queues m.priority).length then
    let s1 := (sweepExpired now m.priority s).1
    if s.maxQueueSize ≤ (s1.queues m.priority).length then
      if m.priority.isHighClass then (pushMsg m (makeRoom m.priority s1).1, true)
      else (s1, false)
    else (pushMsg m s1, true)
  else (pushMsg m s, true)

/-- Admission outcomes of `add_message` (lines 467-516): the ValueError
raises, the duplicate and degraded-mode rejections, the queue-full
rejection, and success. -/
inductive AddResult
  | admitted
  | invalidParams
  | duplicateId
  | degradedDrop
  | queueFull
deriving DecidableEq

/-- `add_message` (lines 467-516): parameter validation, duplicate check
against the active index, degraded-mode filtering, then the internal
enqueue.  The admission timeout path leaves the state unchanged and is
not modelled separately. -/
def addMessage (now : Nat) (m : Msg) (s : SchedState) : SchedState × AddResult :=
  if m.messageId == "" || decide (m.bandwidthRequired ≤ 0) then (s, .invalidParams)
  else if s.active.contains m.messageId then (s, .duplicateId)
  else if s.degraded && !m.priority.isHighClass then (s, .degradedDrop)
  else
    match addMessageInternal now m s with
    | (s2, true) => (s2, .admitted)
    | (s2, false) => (s2, .queueFull)

/-- How the processing of one popped message can end, per
`_process_single_message` (lines 733-800): processor success, processor
returned False, `asyncio.TimeoutError`, or another exception. -/
inductive ProcOutcome
  | success
  | returnedFalse
  | timedOut
  | raisedError
deriving DecidableEq

/-- `_process_next_message` plus `_process_single_message` (lines
707-800) as one atomic step (the intermediate PROCESSING stamp of line
746 is collapsed; only the end state of the step is modelled).  The
pop touches only the queue of class `p`.  On the normal return paths
(success / returned-False) the message is removed from the active index
(line 787); on the expired, timeout and exception paths the handler
returns before that line, so the message keeps its terminal status AND
stays in the active index.  The Boolean is the "a message was popped"
return value. -/
def processNext (now : Nat) (p : MsgPriority) (oc : ProcOutcome) (s : SchedState) :
    SchedState × Bool :=
  match popMin (s.queues p) with
  | none => (s, false)
  | some (e, rest) =>
    let s1 := { s with queues := updateQ p rest s.queues }
    if isExpired now e then
      ({ s1 with statuses := setStatus e.mid .timeout s1.statuses }, true)
    else
      match oc with
      | .success =>
        ({ s1 with
            statuses := setStatus e.mid .completed s1.statuses
            active := s1.active.filter (fun mid => !(mid == e.mid)) }, true)
      | .returnedFalse =>
        ({ s1 with
            statuses := setStatus e.mid .failed s1.statuses
            active := s1.active.filter (fun mid => !(mid == e.mid)) }, true)
      | .timedOut =>
        ({ s1 with statuses := setStatus e.mid .timeout s1.statuses }, true)
      | .raisedError =>
        ({ s1 with statuses := setStatus e.mid .failed s1.statuses }, true)

/-- The completed/failed purge of `_handle_memory_pressure` (lines
450-456), modelled as removing every such entry (the batch cap of 100 is
a batching detail). -/
def pressureCleanup (s : SchedState) : SchedState :=
  { s with active := s.active.filter (fun mid =>
      match lookupStatus s.statuses mid with
      | some .completed => false
      | some .failed => false
      | _ => true) }

/-- A freshly constructed scheduler (lines 326-413). -/
def initState (cap : Nat) : SchedState :=
  { queues := fun _ => []
    statuses := []
    active := []
    maxQueueSize := cap
    degraded := false }

/-- One observable scheduler transition: an admission (messages enter
with their dataclass-default status QUEUED), a dispatch step with some
processing outcome, an expiry sweep (maintenance loop, line 883), the
memory-pressure purge, or a degraded-flag change (lines 461, 893). -/
inductive Step : SchedState → SchedState → Prop
  | add (now : Nat) (m : Msg) (s : SchedState) (h : m.status = .queued) :
      Step s (addMessage now m s).1
  | process (now : Nat) (p : MsgPriority) (oc : ProcOutcome) (s : SchedState) :
      Step s (processNext now p oc s).1
  | sweep (now : Nat) (p : MsgPriority) (s : SchedState) :
      Step s (sweepExpired now p s).1
  | pressure (s : SchedState) :
      Step s (pressureCleanup s)
  | setDegraded (b : Bool) (s : SchedState) :
      Step s { s with degraded := b }

/-- States a scheduler with per-class capacity `cap` can reach. -/
inductive Reachable (cap : Nat) : SchedState → Prop
  | init : Reachable cap (initState cap)
  | step {s s2 : SchedState} : Reachable cap s → Step s s2 → Reachable cap s2

/-- The state invariant reachable states satisfy (the amended form of
the spec §8 queue/index invariant): a class queue holds only entries of
its class; every queued entry is in the active index with status QUEUED;
ids are unique within and across queues; a message absent from the
active index has terminal status; and the LOW/MEDIUM queues respect the
capacity (CRITICAL/HIGH queues do not — see the C5 analysis). -/
structure Inv (s : SchedState) : Prop where
  purity : ∀ p, ∀ e ∈ s.queues p, e.prio = p
  indexed : ∀ p, ∀ e ∈ s.queues p, e.mid ∈ s.active
  queuedStatus : ∀ p, ∀ e ∈ s.queues p, lookupStatus s.statuses e.mid = some .queued
  nodupQueue : ∀ p, ((s.queues p).map QEntry.mid).Nodup
  disjointQueues : ∀ p1 p2, p1 ≠ p2 → ∀ e1 ∈ s.queues p1, ∀ e2 ∈ s.queues p2,
    e1.mid ≠ e2.mid
  absentTerminal : ∀ mid st, lookupStatus s.statuses mid = some st →
    mid ∉ s.active → st.isTerminal = true
  lowBound : (s.queues .low).length ≤ s.maxQueueSize
  medBound : (s.queues .medium).length ≤ s.maxQueueSize

/-- A MEDIUM message "a" without deadline, as a producer constructs it. -/
def exMsgA : Msg :=
  { messageId := "a", priority := .medium, bandwidthRequired := 1,
    createdAt := 0, deadline := none, status := .queued }

/-- A second MEDIUM message "b". -/
def exMsgB : Msg :=
  { messageId := "b", priority := .medium, bandwidthRequired := 1,
    createdAt := 1, deadline := none, status := .queued }

/-- A CRITICAL message "c1". -/
def exMsgCrit : Msg :=
  { messageId := "c1", priority := .critical, bandwidthRequired := 1,
    createdAt := 0, deadline := none, status := .queued }

/-- A LOW message "l1". -/
def exMsgLow : Msg :=
  { messageId := "l1", priority := .low, bandwidthRequired := 1,
    createdAt := 0, deadline := none, status := .queued }

/-- The state after admitting a CRITICAL and then a LOW message into a
fresh scheduler of capacity 10. -/
def exCrossState : SchedState :=
  (addMessage 1 exMsgLow (addMessage 0 exMsgCrit (initState 10)).1).1

/-- The state after message "a" is admitted and then processed with an
`asyncio.TimeoutError` outcome. -/
def exStuckState : SchedState :=
  (processNext 1 .medium ProcOutcome.timedOut (addMessage 0 exMsgA (initState 2)).1).1

/-- The state after admitting "a" into a capacity-2 scheduler. -/
def exC4WitState : SchedState :=
  (addMessage 0 exMsgA (initState 2)).1

/-- The state after admitting "a" into a capacity-1 scheduler (its
MEDIUM queue is exactly full). -/
def exC8State : SchedState :=
  (addMessage 0 exMsgA (initState 1)).1

/-- A MEDIUM entry created late. -/
def exEntryNew : QEntry := ⟨"new", .medium, 5, none⟩

/-- A MEDIUM entry created early. -/
def exEntryOld : QEntry := ⟨"old", .medium, 1, none⟩

/-- A scheduler whose MEDIUM queue holds the newer entry in front of the
older one (list order is not pop order). -/
def exTwoState : SchedState :=
  { queues := fun p => match p with
      | .medium => [exEntryNew, exEntryOld]
      | _ => []
    statuses := [("new", .queued), ("old", .queued)]
    active := ["new", "old"]
    maxQueueSize := 10
    degraded := false }

/-- The queue entry of the CRITICAL message "c0". -/
def exEntryC0 : QEntry := ⟨"c0", .critical, 0, none⟩

/-- The queue entry of the LOW message "l0". -/
def exEntryL0 : QEntry := ⟨"l0", .low, 0, none⟩

/-- A capacity-1 scheduler whose CRITICAL queue is full (holding "c0")
while a LOW message "l0" is queued. -/
def exC5State : SchedState :=
  { queues := fun p => match p with
      | .critical => [exEntryC0]
      | .low => [exEntryL0]
      | _ => []
    statuses := [("c0", .queued), ("l0", .queued)]
    active := ["c0", "l0"]
    maxQueueSize := 1
    degraded := false }

/-- A CRITICAL message "c9" admitted into the full CRITICAL queue. -/
def exMsgC1 : Msg :=
  { messageId := "c9", priority := .critical, bandwidthRequired := 1,
    createdAt := 2, deadline := none, status := .queued }

end Sched

namespace LDPC

/-- Every return of the `_decode_block` loop reports at most `maxIter`
iterations: `iteration + 1 = maxIter - fuel ≤ maxIter` on convergence and
exactly `maxIter` otherwise. -/
theorem decodeBlockGo_iterations_le (H : List (List Nat)) (k maxIter : Nat) (t : ℚ) :
    ∀ fuel r, (decodeBlockGo H k maxIter t fuel r).2.1 ≤ maxIter := by
  intro fuel
  induction fuel with
  | zero => intro r; exact le_refl _
  | succ fuel ih =>
    intro r
    unfold decodeBlockGo
    by_cases hc : convergedB t (unsatCount H r) = true
    · simp only [hc, if_true]
      exact Nat.sub_le _ _
    · simp only [hc]
      by_cases hf : (flipPositions H r).isEmpty = true
      · simp [hf]
      · simp only [hf, if_false, Bool.false_eq_true, if_neg]
        exact ih _

/-- The summed per-block iteration counts of one whole-message decode are
bounded by the block count times the per-block cap. -/
theorem decodeBlocksResult_iterations_le (H : List (List Nat)) (k n maxIter : Nat)
    (t : ℚ) (encoded : List Nat) (origLen padBits : Nat) (cs : Option (List Nat)) :
    (decodeBlocksResult H k n maxIter t encoded origLen padBits cs).iterationsUsed ≤
      numBlocksOf n encoded.length * maxIter := by
  simp only [decodeBlocksResult]
  rw [List.map_map]
  refine le_trans (List.sum_le_card_nsmul _ maxIter ?_) ?_
  · intro x hx
    rw [List.mem_map] at hx
    obtain ⟨b, _hb, rfl⟩ := hx
    exact decodeBlockGo_iterations_le H k maxIter t maxIter _
  · rw [List.length_map, List.length_range, smul_eq_mul]

end LDPC

namespace LDPC

/-- The row weight at block length 8: `max(3, ⌊√8/2⌋) = max(3, 1) = 3`
(`Nat.sqrt` is proved, not unfolded: it is defined by well-founded
recursion). -/
theorem rowWeight_eight : rowWeight 8 = 3 := by
  have h : Nat.sqrt 8 = 2 := by
    have h1 : Nat.sqrt 8 < 3 := Nat.sqrt_lt.mpr (by norm_num)
    have h2 : 2 ≤ Nat.sqrt 8 := Nat.le_sqrt.mpr (by norm_num)
    omega
  rw [rowWeight, h]
  rfl

/-- Claim C1 (code_bug evidence).  The matrix generator can emit — for the
valid parameters rate 1/2, block length 8, within the default memory
budget — a pair (G, H) and an information block b whose fresh codeword
`c = b·G mod 2` has the NONZERO syndrome `H·c mod 2 = 1000`: the generator
draws H and P independently, so `H·Gᵀ = 0` fails, contradicting the spec
§8 invariant and the code's own comment `H = [P^T | I_m]` (line 394). -/
theorem syndrome_of_fresh_codeword_nonzero :
    ValidCodeParameters exParams ∧
    (8 * kOf (mkRat 1 2) 8 + 8 * (8 - kOf (mkRat 1 2) 8)) * 8 ≤ 268435456 ∧
    IsLDPCOutput (mkRat 1 2) 8 exG exH ∧
    syndrome exH (encodeBlock exG 8 [1, 0, 0, 0]) = [1, 0, 0, 0] ∧
    [1, 0, 0, 0] ≠ List.replicate 4 0 := by
  refine ⟨?_, by decide, ⟨exChoices, exP, ?_, ?_, rfl, rfl⟩, by decide, by decide⟩
  · unfold ValidCodeParameters exParams
    refine ⟨by decide, by decide, by decide, by decide⟩
  · unfold ValidChoices exChoices
    simp only [rowWeight_eight]
    decide
  · unfold ValidP exP
    decide

/-- Claim C2 (code_bug evidence).  With the generator draw of C1 and the
message `1000`, `encode` succeeds and returns the codeword `10000000`
with its metadata, yet decoding that UNCORRUPTED codeword flips bits
(the syndrome of the clean codeword is nonzero), yields corrected data
`0110 ≠ 1000` and fails the digest comparison: `success = false` on an
ideal channel. -/
theorem clean_roundtrip_decode_fails :
    IsLDPCOutput (mkRat 1 2) 8 exG exH ∧
    (encode exState exGen ChannelCond.good [1, 0, 0, 0] exNoTimeout).1.toOption =
      some ([1, 0, 0, 0, 0, 0, 0, 0], exMeta) ∧
    (decode (encode exState exGen ChannelCond.good [1, 0, 0, 0] exNoTimeout).2 exGen
      [1, 0, 0, 0, 0, 0, 0, 0] exMeta exNoTimeout).1.success = false ∧
    (decode (encode exState exGen ChannelCond.good [1, 0, 0, 0] exNoTimeout).2 exGen
      [1, 0, 0, 0, 0, 0, 0, 0] exMeta exNoTimeout).1.correctedData =
      some [0, 1, 1, 0] ∧
    some [0, 1, 1, 0] ≠ some [1, 0, 0, 0] := by
  refine ⟨⟨exChoices, exP, ?_, ?_, rfl, rfl⟩, by decide, by decide, by decide, by decide⟩
  · unfold ValidChoices exChoices
    simp only [rowWeight_eight]
    decide
  · unfold ValidP exP
    decide

end LDPC

namespace LDPC

/-- Claim C6 (amended).  `decode` never raises for recoverable
conditions: when the wall clock expires at some block boundary, OR when
the metadata lacks `original_length`, it returns a `DecodingResult` with
`success = false` — the internal `ValueError` for missing metadata is
swallowed by `decode`'s own `except Exception` handler (lines 770-789),
so it is NOT a hard error to the caller. -/
theorem decode_recoverable_failures_return_failed_result
    (st : EncoderState) (gen : ℚ → Nat → MatPair) (encoded : List Nat)
    (meta : EncodedBlockMeta) (timeoutAt : Nat → Bool)
    (h : meta.originalLength = none ∨
      ((List.range (numBlocksOf (effBlockLen st meta) encoded.length)).find?
        timeoutAt).isSome = true) :
    (decode st gen encoded meta timeoutAt).1.success = false := by
  unfold decode
  cases hm : meta.originalLength with
  | none => rfl
  | some origLen =>
    rcases h with h | h
    · rw [hm] at h
      cases h
    · dsimp only
      split
      · rfl
      · split
        · rfl
        · split
          · rfl
          · rename_i hnone
            rw [hnone] at h
            cases h

/-- Witness for C6's amended theorem: the hypotheses are discharged at
the concrete missing-metadata call of the counterexample. -/
theorem decode_recoverable_failures_witness :
    exMetaNone.originalLength = none ∧
    (decode exState exGen [1, 0, 1, 0] exMetaNone exNoTimeout).1.success = false :=
  ⟨rfl, decode_recoverable_failures_return_failed_result exState exGen [1, 0, 1, 0]
    exMetaNone exNoTimeout (Or.inl rfl)⟩

/-- Claim C6 (counterexample to the claim as stated).  At a concrete call
whose metadata lacks `original_length`, `decode` RETURNS the failed
`DecodingResult` of its exception handler (success false, no corrected
data, zero iterations) instead of raising a hard error to the caller. -/
theorem decode_missing_metadata_returns_failed_result :
    (decode exState exGen [1, 0, 1, 0] exMetaNone exNoTimeout).1.success = false ∧
    (decode exState exGen [1, 0, 1, 0] exMetaNone exNoTimeout).1.correctedData = none ∧
    (decode exState exGen [1, 0, 1, 0] exMetaNone exNoTimeout).1.iterationsUsed = 0 ∧
    (decode exState exGen [1, 0, 1, 0] exMetaNone exNoTimeout).2 = decFail exState :=
  ⟨rfl, rfl, rfl, rfl⟩

end LDPC

namespace LDPC

/-- Claim C7 (counterexample to the claim as stated).  With
`max_iterations = 1` (a valid configuration) and the two-block message
`10001000`, `encode` emits the 16-bit stream and `decode` reports
`iterations_used = 2 > 1 = max_iterations`: `decode` SUMS the per-block
iteration counts over the blocks (line 693), so the reported total is
not bounded by the per-decode cap once the stream has several blocks. -/
theorem decode_iterations_exceed_cap :
    (encode exState7 exGen ChannelCond.good [1, 0, 0, 0, 1, 0, 0, 0]
      exNoTimeout).1.toOption = some (exCode7, exMeta7) ∧
    (decode (encode exState7 exGen ChannelCond.good [1, 0, 0, 0, 1, 0, 0, 0]
      exNoTimeout).2 exGen exCode7 exMeta7 exNoTimeout).1.iterationsUsed = 2 ∧
    exState7.codeParams.maxIterations = 1 ∧ ¬(2 ≤ 1) :=
  ⟨by decide, by decide, rfl, by decide⟩

/-- Claim C7 (amended).  In every `DecodingResult` returned by `decode`,
`iterations_used` is at most `⌈received bits / block length⌉ ·
max_iterations`: each block uses at most `max_iterations` iterations and
the result reports their sum (for a single-block stream this is the
original bound; the failed results of the exception paths report 0). -/
theorem decode_iterations_le_blocks_mul_cap
    (st : EncoderState) (gen : ℚ → Nat → MatPair) (encoded : List Nat)
    (meta : EncodedBlockMeta) (timeoutAt : Nat → Bool) :
    (decode st gen encoded meta timeoutAt).1.iterationsUsed ≤
      numBlocksOf (effBlockLen st meta) encoded.length *
        st.codeParams.maxIterations := by
  unfold decode
  cases hm : meta.originalLength with
  | none => exact Nat.zero_le _
  | some origLen =>
    dsimp only
    split
    · exact Nat.zero_le _
    · split
      · exact Nat.zero_le _
      · split
        · exact Nat.zero_le _
        · split <;>
            exact decodeBlocksResult_iterations_le _ _ _ _ _ _ _ _ _

/-- Claim C9 (counterexample to the claim as stated).  A mode change away
from a block length other than 1024 rewrites `block_length`: from the
512-bit configuration, the adaptation to an EXCELLENT channel switches to
FAST and sets `block_length = 1024 ≠ 512` — `_switch_to_mode` installs
the mode table's fixed 1024, not the previous block length. -/
theorem switch_mode_changes_block_length :
    exSwitchState.currentMode = ECMode.standard ∧
    modeForCond ChannelCond.excellent = ECMode.fast ∧
    exSwitchState.codeParams.blockLength = 512 ∧
    (adaptCodeParameters exSwitchState ChannelCond.excellent).codeParams.blockLength
      = 1024 ∧
    ¬(1024 = 512) :=
  ⟨rfl, rfl, rfl, rfl, by decide⟩

/-- Claim C9 (amended).  On every mode switch the controller replaces
`CodeParameters` with the new mode's code rate and the mode table's
fixed block length 1024 (so `block_length` is preserved only when it
already was 1024), keeps `max_iterations` and `syndrome_threshold`
unchanged, and clears the matrix cache so matrices are regenerated on
next use. -/
theorem switch_mode_spec (st : EncoderState) (mode : ECMode) :
    (switchToMode st mode).codeParams.codeRate = (modeParams mode).1 ∧
    (switchToMode st mode).codeParams.blockLength = 1024 ∧
    (switchToMode st mode).codeParams.maxIterations =
      st.codeParams.maxIterations ∧
    (switchToMode st mode).codeParams.syndromeThreshold =
      st.codeParams.syndromeThreshold ∧
    (switchToMode st mode).cache = [] := by
  cases mode <;> exact ⟨rfl, rfl, rfl, rfl, rfl⟩

/-- Claim C10.  `decode` always restores the caller's `code_params`: the
temporary substitution from the metadata (lines 652-659) is undone by the
`finally` block (lines 766-768) on the success, checksum-failure and
timeout paths, and the substitution never happens on the early error
paths, so the field is unchanged on every return. -/
theorem decode_preserves_code_params
    (st : EncoderState) (gen : ℚ → Nat → MatPair) (encoded : List Nat)
    (meta : EncodedBlockMeta) (timeoutAt : Nat → Bool) :
    (decode st gen encoded meta timeoutAt).2.codeParams = st.codeParams := by
  unfold decode
  cases hm : meta.originalLength with
  | none => rfl
  | some origLen =>
    dsimp only
    split
    · rfl
    · split
      · rfl
      · split
        · rfl
        · split <;> rfl

end LDPC

namespace Sched

/-- The heap order is irreflexive. -/
theorem qLt_irrefl (x : QEntry) : qLt x x = false := by
  simp [qLt]

/-- The heap order is asymmetric. -/
theorem qLt_asymm {x y : QEntry} (h : qLt x y = true) : qLt y x = false := by
  simp only [qLt, Bool.or_eq_true, Bool.and_eq_true, decide_eq_true_eq] at h
  simp only [qLt, Bool.or_eq_false_iff, Bool.and_eq_false_iff, decide_eq_false_iff_not]
  omega

/-- The heap order is the strict order of a total preorder: staying
≤ twice composes. -/
theorem qLt_neg_trans {a b x : QEntry} (h1 : qLt b a = false) (h2 : qLt x b = false) :
    qLt x a = false := by
  simp only [qLt, Bool.or_eq_false_iff, Bool.and_eq_false_iff,
    decide_eq_false_iff_not] at h1 h2 ⊢
  omega

/-- `popMin` fails exactly on the empty queue. -/
theorem popMin_none {l : List QEntry} : popMin l = none ↔ l = [] := by
  cases l with
  | nil => simp [popMin]
  | cons a tl =>
    simp only [popMin]
    constructor
    · intro h
      cases htl : popMin tl with
      | none => rw [htl] at h; cases h
      | some pr => rw [htl] at h; obtain ⟨b, r2⟩ := pr; dsimp only at h; split at h <;> cases h
    · intro h; cases h

/-- The popped entry was in the queue. -/
theorem popMin_mem : ∀ {l : List QEntry} {e rest},
    popMin l = some (e, rest) → e ∈ l := by
  intro l
  induction l with
  | nil => intro e rest h; cases h
  | cons a tl ih =>
    intro e rest h
    cases htl : popMin tl with
    | none => simp only [popMin, htl] at h; cases h; exact List.mem_cons_self _ _
    | some pr =>
      obtain ⟨b, r2⟩ := pr
      simp only [popMin, htl] at h
      by_cases hlt : qLt b a = true
      · rw [if_pos hlt] at h; cases h; exact List.mem_cons_of_mem _ (ih htl)
      · rw [if_neg hlt] at h; cases h; exact List.mem_cons_self _ _

/-- A pop removes exactly one occurrence: the queue is a permutation of
the popped entry consed on the remainder. -/
theorem popMin_perm : ∀ {l : List QEntry} {e rest},
    popMin l = some (e, rest) → l.Perm (e :: rest) := by
  intro l
  induction l with
  | nil => intro e rest h; cases h
  | cons a tl ih =>
    intro e rest h
    cases htl : popMin tl with
    | none =>
      simp only [popMin, htl] at h
      cases h
      rw [popMin_none.mp htl]
    | some pr =>
      obtain ⟨b, r2⟩ := pr
      simp only [popMin, htl] at h
      by_cases hlt : qLt b a = true
      · rw [if_pos hlt] at h
        cases h
        exact ((ih htl).cons a).trans (List.Perm.swap _ _ _)
      · rw [if_neg hlt] at h
        cases h
        exact List.Perm.refl _

/-- The popped entry is `__lt__`-minimal in the queue (the `heapq`
contract). -/
theorem popMin_min : ∀ {l : List QEntry} {e rest},
    popMin l = some (e, rest) → ∀ x ∈ l, qLt x e = false := by
  intro l
  induction l with
  | nil => intro e rest h; cases h
  | cons a tl ih =>
    intro e rest h x hx
    cases htl : popMin tl with
    | none =>
      simp only [popMin, htl] at h
      cases h
      rw [popMin_none.mp htl] at hx
      have hxa : x = a := by simpa using hx
      subst hxa
      exact qLt_irrefl x
    | some pr =>
      obtain ⟨b, r2⟩ := pr
      simp only [popMin, htl] at h
      by_cases hlt : qLt b a = true
      · rw [if_pos hlt] at h
        cases h
        rcases List.mem_cons.mp hx with rfl | hx2
        · exact qLt_asymm hlt
        · exact ih htl x hx2
      · rw [if_neg hlt] at h
        cases h
        rcases List.mem_cons.mp hx with rfl | hx2
        · exact qLt_irrefl x
        · exact qLt_neg_trans (by simpa using hlt) (ih htl x hx2)

end Sched

namespace Sched

/-- Looking up the id just written. -/
theorem lookupStatus_set_self (mid : String) (st : MsgStatus)
    (l : List (String × MsgStatus)) :
    lookupStatus (setStatus mid st l) mid = some st := by
  simp [lookupStatus, setStatus, List.find?]

/-- Writing one id leaves every other lookup unchanged. -/
theorem lookupStatus_set_other {mid mid2 : String} (h : mid2 ≠ mid)
    (st : MsgStatus) (l : List (String × MsgStatus)) :
    lookupStatus (setStatus mid st l) mid2 = lookupStatus l mid2 := by
  simp only [lookupStatus, setStatus, List.find?]
  rw [show ((mid, st).1 == mid2) = false by simpa using (Ne.symm h)]

/-- A batch of status writes over entries whose ids avoid `mid` leaves
the lookup of `mid` unchanged. -/
theorem lookupStatus_foldl_set_not_mem {es : List QEntry} {mid : String}
    (st : MsgStatus) (h : ∀ e ∈ es, e.mid ≠ mid) :
    ∀ l, lookupStatus (es.foldl (fun acc e => setStatus e.mid st acc) l) mid =
      lookupStatus l mid := by
  induction es with
  | nil => intro l; rfl
  | cons a tl ih =>
    intro l
    simp only [List.foldl_cons]
    rw [ih (fun e he => h e (List.mem_cons_of_mem _ he))]
    exact lookupStatus_set_other (fun hh => h a (List.mem_cons_self _ _) hh.symm) st l

/-- After a batch of status writes, every written id reads back the
written status. -/
theorem lookupStatus_foldl_set_mem {es : List QEntry} {mid : String}
    (st : MsgStatus) (h : mid ∈ es.map QEntry.mid) :
    ∀ l, lookupStatus (es.foldl (fun acc e => setStatus e.mid st acc) l) mid =
      some st := by
  induction es with
  | nil => cases h
  | cons a tl ih =>
    intro l
    simp only [List.foldl_cons]
    by_cases hm : mid ∈ tl.map QEntry.mid
    · exact ih hm _
    · have ha : a.mid = mid := by
        simp only [List.map_cons, List.mem_cons] at h
        exact ((h.resolve_right hm)).symm
      have hne : ∀ e ∈ tl, e.mid ≠ mid := by
        intro e he hmm2
        exact hm (hmm2 ▸ List.mem_map_of_mem QEntry.mid he)
      rw [lookupStatus_foldl_set_not_mem st hne, ha]
      exact lookupStatus_set_self mid st l

/-- Reading the replaced class queue. -/
theorem updateQ_same (p : MsgPriority) (q : List QEntry)
    (f : MsgPriority → List QEntry) : updateQ p q f p = q := by
  simp [updateQ]

/-- Reading any other class queue. -/
theorem updateQ_other {p p2 : MsgPriority} (h : p2 ≠ p) (q : List QEntry)
    (f : MsgPriority → List QEntry) : updateQ p q f p2 = f p2 := by
  simp [updateQ, h]

/-- Two entries of opposite halves of one filter partition of a queue
with unique ids have distinct ids. -/
theorem filter_partition_mid_ne {q : List QEntry}
    (hnd : (q.map QEntry.mid).Nodup) {f : QEntry → Bool} {e1 e2 : QEntry}
    (h1 : e1 ∈ q.filter f) (h2 : e2 ∈ q.filter (fun x => !f x)) :
    e1.mid ≠ e2.mid := by
  rw [List.mem_filter] at h1 h2
  intro he
  have := List.inj_on_of_nodup_map hnd h1.1 h2.1 he
  subst this
  rw [h1.2] at h2
  simp at h2

/-- Popping an entry from a queue with unique ids leaves no entry with
the popped id in the remainder. -/
theorem popMin_mid_not_mem_rest {q : List QEntry} {e : QEntry} {rest : List QEntry}
    (hnd : (q.map QEntry.mid).Nodup) (hpop : popMin q = some (e, rest)) :
    e.mid ∉ rest.map QEntry.mid := by
  have hperm := (popMin_perm hpop).map QEntry.mid
  have hnd2 : ((e :: rest).map QEntry.mid).Nodup := hperm.nodup_iff.mp hnd
  simp only [List.map_cons, List.nodup_cons] at hnd2
  exact hnd2.1

end Sched

namespace Sched

/-- The expiry sweep preserves the scheduler invariant: surviving entries
keep their status and index membership (their ids differ from every
expired id by queue uniqueness), expired ids get terminal status TIMEOUT,
and queues only shrink. -/
theorem inv_sweepExpired {s : SchedState} (h : Inv s) (now : Nat) (p : MsgPriority) :
    Inv (sweepExpired now p s).1 := by
  by_cases hemp : ((s.queues p).filter (isExpired now)).isEmpty = true
  · have hid : (sweepExpired now p s).1 = s := by
      simp only [sweepExpired, hemp, if_true]
    rw [hid]
    exact h
  · have hsw : (sweepExpired now p s).1 = { s with
        queues := updateQ p ((s.queues p).filter (fun e => !isExpired now e)) s.queues
        statuses := ((s.queues p).filter (isExpired now)).foldl
          (fun acc e => setStatus e.mid .timeout acc) s.statuses
        active := s.active.filter (fun mid =>
          !((s.queues p).filter (isExpired now)).any (fun e => e.mid == mid)) } := by
      simp only [sweepExpired, hemp, if_false, Bool.false_eq_true]
    rw [hsw]
    have hmemq : ∀ p2, ∀ e ∈ updateQ p ((s.queues p).filter (fun e => !isExpired now e))
        s.queues p2, e ∈ s.queues p2 := by
      intro p2 e he
      by_cases hp2 : p2 = p
      · subst hp2
        rw [updateQ_same] at he
        exact List.mem_of_mem_filter he
      · rwa [updateQ_other hp2] at he
    have hNotInE : ∀ p2, ∀ e ∈ updateQ p ((s.queues p).filter (fun e => !isExpired now e))
        s.queues p2, ∀ e2 ∈ (s.queues p).filter (isExpired now), e.mid ≠ e2.mid := by
      intro p2 e he e2 he2
      by_cases hp2 : p2 = p
      · subst hp2
        rw [updateQ_same] at he
        exact (filter_partition_mid_ne (h.nodupQueue _) he2 he).symm
      · rw [updateQ_other hp2] at he
        exact h.disjointQueues p2 _ hp2 e he e2 (List.mem_of_mem_filter he2)
    constructor <;> dsimp only
    · intro p2 e he
      exact h.purity p2 e (hmemq p2 e he)
    · intro p2 e he
      refine List.mem_filter.mpr ⟨h.indexed p2 e (hmemq p2 e he), ?_⟩
      simp only [Bool.not_eq_true', List.any_eq_false]
      intro e2 he2
      simp only [beq_iff_eq]
      exact fun hc => hNotInE p2 e he e2 he2 hc.symm
    · intro p2 e he
      rw [lookupStatus_foldl_set_not_mem _
        (fun e2 he2 => (hNotInE p2 e he e2 he2).symm)]
      exact h.queuedStatus p2 e (hmemq p2 e he)
    · intro p2
      by_cases hp2 : p2 = p
      · subst hp2
        rw [updateQ_same]
        exact List.Nodup.sublist ((List.filter_sublist _).map QEntry.mid)
          (h.nodupQueue _)
      · rw [updateQ_other hp2]
        exact h.nodupQueue p2
    · intro p1 p2 hne e1 he1 e2 he2
      exact h.disjointQueues p1 p2 hne e1 (hmemq p1 e1 he1) e2 (hmemq p2 e2 he2)
    · intro mid st hlk hna
      by_cases hmE : mid ∈ ((s.queues p).filter (isExpired now)).map QEntry.mid
      · rw [lookupStatus_foldl_set_mem _ hmE] at hlk
        cases hlk
        rfl
      · have hne2 : ∀ e ∈ (s.queues p).filter (isExpired now), e.mid ≠ mid :=
          fun e he hc => hmE (hc ▸ List.mem_map_of_mem QEntry.mid he)
        rw [lookupStatus_foldl_set_not_mem _ hne2] at hlk
        refine h.absentTerminal mid st hlk ?_
        intro hmem
        refine hna (List.mem_filter.mpr ⟨hmem, ?_⟩)
        simp only [Bool.not_eq_true', List.any_eq_false]
        intro e2 he2
        simp only [beq_iff_eq]
        exact hne2 e2 he2
    · by_cases hp : MsgPriority.low = p
      · subst hp
        rw [updateQ_same]
        exact le_trans (List.length_filter_le _ _) h.lowBound
      · rw [updateQ_other hp]
        exact h.lowBound
    · by_cases hp : MsgPriority.medium = p
      · subst hp
        rw [updateQ_same]
        exact le_trans (List.length_filter_le _ _) h.medBound
      · rw [updateQ_other hp]
        exact h.medBound

end Sched

namespace Sched

/-- The sweep does not change the configured capacity. -/
theorem sweepExpired_max (now : Nat) (p : MsgPriority) (s : SchedState) :
    (sweepExpired now p s).1.maxQueueSize = s.maxQueueSize := by
  by_cases hemp : ((s.queues p).filter (isExpired now)).isEmpty = true <;>
    simp [sweepExpired, hemp]

/-- The sweep only removes ids from the active index. -/
theorem sweepExpired_active_subset (now : Nat) (p : MsgPriority) (s : SchedState) :
    ∀ mid ∈ (sweepExpired now p s).1.active, mid ∈ s.active := by
  intro mid hm
  by_cases hemp : ((s.queues p).filter (isExpired now)).isEmpty = true
  · simp only [sweepExpired, hemp, if_true] at hm
    exact hm
  · simp only [sweepExpired, hemp, if_false, Bool.false_eq_true] at hm
    exact (List.mem_filter.mp hm).1

/-- The sweep never grows a queue. -/
theorem sweepExpired_queues_len_le (now : Nat) (p : MsgPriority) (s : SchedState)
    (p2 : MsgPriority) :
    ((sweepExpired now p s).1.queues p2).length ≤ (s.queues p2).length := by
  by_cases hemp : ((s.queues p).filter (isExpired now)).isEmpty = true
  · simp only [sweepExpired, hemp, if_true]
    exact le_refl _
  · simp only [sweepExpired, hemp, if_false, Bool.false_eq_true]
    by_cases hp2 : p2 = p
    · subst hp2
      rw [updateQ_same]
      exact List.length_filter_le _ _
    · rw [updateQ_other hp2]

/-- The sweep either leaves the state untouched (nothing expired) or
strictly shrinks the swept queue. -/
theorem sweepExpired_eq_or_lt (now : Nat) (p : MsgPriority) (s : SchedState) :
    (sweepExpired now p s).1 = s ∨
      ((sweepExpired now p s).1.queues p).length < (s.queues p).length := by
  by_cases hemp : ((s.queues p).filter (isExpired now)).isEmpty = true
  · left
    simp only [sweepExpired, hemp, if_true]
  · right
    simp only [sweepExpired, hemp, if_false, Bool.false_eq_true]
    rw [updateQ_same]
    have hlen := List.length_eq_length_filter_add (l := s.queues p) (isExpired now)
    have hne : ((s.queues p).filter (isExpired now)).length ≠ 0 := by
      intro hz
      rw [List.length_eq_zero] at hz
      rw [hz] at hemp
      exact hemp rfl
    have heq : (s.queues p).filter (fun e => !isExpired now e) =
        (s.queues p).filter (fun e => !isExpired now e) := rfl
    omega

end Sched

namespace Sched

/-- Preemption does not change the configured capacity. -/
theorem makeRoomGo_max (s : SchedState) : ∀ qs : List MsgPriority,
    (makeRoomGo s qs).1.maxQueueSize = s.maxQueueSize := by
  intro qs
  induction qs with
  | nil => rfl
  | cons q qs ih =>
    simp only [makeRoomGo]
    cases hpop : popMin (s.queues q) with
    | none => exact ih
    | some pr => rfl

/-- Preemption only removes ids from the active index. -/
theorem makeRoomGo_active_subset (s : SchedState) : ∀ qs : List MsgPriority,
    ∀ mid ∈ (makeRoomGo s qs).1.active, mid ∈ s.active := by
  intro qs
  induction qs with
  | nil => intro mid hm; exact hm
  | cons q qs ih =>
    intro mid hm
    simp only [makeRoomGo] at hm
    cases hpop : popMin (s.queues q) with
    | none =>
      rw [hpop] at hm
      exact ih mid hm
    | some pr =>
      rw [hpop] at hm
      obtain ⟨e, rest⟩ := pr
      exact (List.mem_filter.mp hm).1

/-- Preemption never grows a queue. -/
theorem makeRoomGo_queues_len_le (s : SchedState) : ∀ qs : List MsgPriority,
    ∀ p2, ((makeRoomGo s qs).1.queues p2).length ≤ (s.queues p2).length := by
  intro qs
  induction qs with
  | nil => intro p2; exact le_refl _
  | cons q qs ih =>
    intro p2
    simp only [makeRoomGo]
    cases hpop : popMin (s.queues q) with
    | none => exact ih p2
    | some pr =>
      obtain ⟨e, rest⟩ := pr
      dsimp only
      by_cases hp2 : p2 = q
      · subst hp2
        rw [updateQ_same]
        have := (popMin_perm hpop).length_eq
        simp only [List.length_cons] at this
        omega
      · rw [updateQ_other hp2]

/-- Preemption does not touch the queues of classes outside its scan
list. -/
theorem makeRoomGo_queues_not_mem (s : SchedState) : ∀ qs : List MsgPriority,
    ∀ p2, p2 ∉ qs → (makeRoomGo s qs).1.queues p2 = s.queues p2 := by
  intro qs
  induction qs with
  | nil => intro p2 _; rfl
  | cons q qs ih =>
    intro p2 hp2
    simp only [makeRoomGo]
    cases hpop : popMin (s.queues q) with
    | none => exact ih p2 (fun hc => hp2 (List.mem_cons_of_mem _ hc))
    | some pr =>
      obtain ⟨e, rest⟩ := pr
      dsimp only
      refine updateQ_other ?_ _ _
      intro hc
      subst hc
      exact hp2 (List.mem_cons_self _ _)

/-- Preemption preserves the scheduler invariant: the evicted entry gets
the terminal status DROPPED and leaves the index; every surviving entry
has a different id. -/
theorem inv_makeRoomGo {s : SchedState} (h : Inv s) : ∀ qs : List MsgPriority,
    Inv (makeRoomGo s qs).1 := by
  intro qs
  induction qs with
  | nil => exact h
  | cons q qs ih =>
    simp only [makeRoomGo]
    cases hpop : popMin (s.queues q) with
    | none => exact ih
    | some pr =>
      obtain ⟨e, rest⟩ := pr
      dsimp only
      have hmeme : e ∈ s.queues q := popMin_mem hpop
      have hrestq : ∀ e2 ∈ rest, e2 ∈ s.queues q := by
        intro e2 he2
        exact (popMin_perm hpop).symm.subset (List.mem_cons_of_mem _ he2)
      have hmemq : ∀ p2, ∀ e2 ∈ updateQ q rest s.queues p2, e2 ∈ s.queues p2 := by
        intro p2 e2 he2
        by_cases hp2 : p2 = q
        · subst hp2
          rw [updateQ_same] at he2
          exact hrestq e2 he2
        · rwa [updateQ_other hp2] at he2
      have hNotE : ∀ p2, ∀ e2 ∈ updateQ q rest s.queues p2, e2.mid ≠ e.mid := by
        intro p2 e2 he2
        by_cases hp2 : p2 = q
        · subst hp2
          rw [updateQ_same] at he2
          intro hc
          exact popMin_mid_not_mem_rest (h.nodupQueue _) hpop
            (hc ▸ List.mem_map_of_mem QEntry.mid he2)
        · rw [updateQ_other hp2] at he2
          exact h.disjointQueues p2 _ hp2 e2 he2 e hmeme
      constructor <;> dsimp only
      · intro p2 e2 he2
        exact h.purity p2 e2 (hmemq p2 e2 he2)
      · intro p2 e2 he2
        refine List.mem_filter.mpr ⟨h.indexed p2 e2 (hmemq p2 e2 he2), ?_⟩
        simp only [Bool.not_eq_true', beq_eq_false_iff_ne, ne_eq]
        exact hNotE p2 e2 he2
      · intro p2 e2 he2
        rw [lookupStatus_set_other (hNotE p2 e2 he2)]
        exact h.queuedStatus p2 e2 (hmemq p2 e2 he2)
      · intro p2
        by_cases hp2 : p2 = q
        · subst hp2
          rw [updateQ_same]
          have hperm := (popMin_perm hpop).map QEntry.mid
          have := hperm.nodup_iff.mp (h.nodupQueue _)
          exact (List.nodup_cons.mp this).2
        · rw [updateQ_other hp2]
          exact h.nodupQueue p2
      · intro p1 p2 hne e1 he1 e2 he2
        exact h.disjointQueues p1 p2 hne e1 (hmemq p1 e1 he1) e2 (hmemq p2 e2 he2)
      · intro mid st hlk hna
        by_cases hmid : mid = e.mid
        · subst hmid
          rw [lookupStatus_set_self] at hlk
          cases hlk
          rfl
        · rw [lookupStatus_set_other hmid] at hlk
          refine h.absentTerminal mid st hlk ?_
          intro hmem
          refine hna (List.mem_filter.mpr ⟨hmem, ?_⟩)
          simp only [Bool.not_eq_true', beq_eq_false_iff_ne, ne_eq]
          exact hmid
      · by_cases hp : MsgPriority.low = q
        · subst hp
          rw [updateQ_same]
          have := (popMin_perm hpop).length_eq
          simp only [List.length_cons] at this
          have := h.lowBound
          omega
        · rw [updateQ_other hp]
          exact h.lowBound
      · by_cases hp : MsgPriority.medium = q
        · subst hp
          rw [updateQ_same]
          have := (popMin_perm hpop).length_eq
          simp only [List.length_cons] at this
          have := h.medBound
          omega
        · rw [updateQ_other hp]
          exact h.medBound

end Sched

namespace Sched

/-- Enqueueing a fresh QUEUED message whose id is not yet active
preserves the invariant, provided a LOW/MEDIUM target queue is below
capacity. -/
theorem inv_pushMsg {s : SchedState} {m : Msg} (h : Inv s)
    (hst : m.status = .queued) (hact : m.messageId ∉ s.active)
    (hlow : m.priority = .low → (s.queues .low).length < s.maxQueueSize)
    (hmed : m.priority = .medium → (s.queues .medium).length < s.maxQueueSize) :
    Inv (pushMsg m s) := by
  have hqact : ∀ p2, ∀ e ∈ s.queues p2, e.mid ≠ m.messageId :=
    fun p2 e he hc => hact (hc ▸ h.indexed p2 e he)
  have hmem2 : ∀ p2, ∀ e ∈ updateQ m.priority (m.entry :: s.queues m.priority)
      s.queues p2, (p2 = m.priority ∧ e = m.entry) ∨ e ∈ s.queues p2 := by
    intro p2 e he
    by_cases hp2 : p2 = m.priority
    · subst hp2
      rw [updateQ_same] at he
      rcases List.mem_cons.mp he with rfl | he2
      · exact Or.inl ⟨rfl, rfl⟩
      · exact Or.inr he2
    · rw [updateQ_other hp2] at he
      exact Or.inr he
  constructor <;> dsimp only [pushMsg]
  · intro p2 e he
    rcases hmem2 p2 e he with ⟨rfl, rfl⟩ | he2
    · rfl
    · exact h.purity p2 e he2
  · intro p2 e he
    rcases hmem2 p2 e he with ⟨rfl, rfl⟩ | he2
    · exact List.mem_cons_self _ _
    · exact List.mem_cons_of_mem _ (h.indexed p2 e he2)
  · intro p2 e he
    rcases hmem2 p2 e he with ⟨rfl, rfl⟩ | he2
    · have hm : m.entry.mid = m.messageId := rfl
      rw [hm, lookupStatus_set_self, hst]
    · rw [lookupStatus_set_other (hqact p2 e he2)]
      exact h.queuedStatus p2 e he2
  · intro p2
    by_cases hp2 : p2 = m.priority
    · subst hp2
      rw [updateQ_same]
      simp only [List.map_cons, List.nodup_cons]
      refine ⟨?_, h.nodupQueue _⟩
      intro hc
      rw [List.mem_map] at hc
      obtain ⟨e, he, hce⟩ := hc
      exact hqact _ e he hce
    · rw [updateQ_other hp2]
      exact h.nodupQueue p2
  · intro p1 p2 hne e1 he1 e2 he2
    rcases hmem2 p1 e1 he1 with ⟨rfl, rfl⟩ | he1b
    · rcases hmem2 p2 e2 he2 with ⟨rfl, rfl⟩ | he2b
      · exact absurd rfl hne
      · exact fun hc => hqact p2 e2 he2b (hc.symm)
    · rcases hmem2 p2 e2 he2 with ⟨rfl, rfl⟩ | he2b
      · exact hqact p1 e1 he1b
      · exact h.disjointQueues p1 p2 hne e1 he1b e2 he2b
  · intro mid st hlk hna
    have hne2 : mid ≠ m.messageId := fun hc => hna (hc ▸ List.mem_cons_self _ _)
    rw [lookupStatus_set_other hne2] at hlk
    exact h.absentTerminal mid st hlk
      (fun hmem => hna (List.mem_cons_of_mem _ hmem))
  · by_cases hp : MsgPriority.low = m.priority
    · rw [← hp, updateQ_same, List.length_cons]
      exact hlow hp.symm
    · rw [updateQ_other hp]
      exact h.lowBound
  · by_cases hp : MsgPriority.medium = m.priority
    · rw [← hp, updateQ_same, List.length_cons]
      exact hmed hp.symm
    · rw [updateQ_other hp]
      exact h.medBound

end Sched

namespace Sched

/-- `_add_message_internal` preserves the invariant for a fresh QUEUED
message whose id is not active: every push happens below capacity for
LOW/MEDIUM, and the CRITICAL/HIGH overflow push touches only those
unbounded queues. -/
theorem inv_addMessageInternal {s : SchedState} {m : Msg} (h : Inv s)
    (hst : m.status = .queued) (hact : m.messageId ∉ s.active) (now : Nat) :
    Inv (addMessageInternal now m s).1 := by
  unfold addMessageInternal
  by_cases hfull : s.maxQueueSize ≤ (s.queues m.priority).length
  · rw [if_pos hfull]
    dsimp only
    have h1 : Inv (sweepExpired now m.priority s).1 := inv_sweepExpired h now m.priority
    have hact1 : m.messageId ∉ (sweepExpired now m.priority s).1.active :=
      fun hc => hact (sweepExpired_active_subset now m.priority s _ hc)
    by_cases hfull2 :
        s.maxQueueSize ≤ ((sweepExpired now m.priority s).1.queues m.priority).length
    · rw [if_pos hfull2]
      by_cases hhigh : m.priority.isHighClass = true
      · rw [if_pos hhigh]
        have h2 := inv_makeRoomGo h1 (lowerPriosBelow m.priority)
        have hact2 : m.messageId ∉
            (makeRoom m.priority (sweepExpired now m.priority s).1).1.active :=
          fun hc => hact1 (makeRoomGo_active_subset _ _ _ hc)
        refine inv_pushMsg h2 hst hact2 ?_ ?_
        · intro hp
          rw [hp] at hhigh
          cases hhigh
        · intro hp
          rw [hp] at hhigh
          cases hhigh
      · rw [if_neg hhigh]
        exact h1
    · rw [if_neg hfull2]
      refine inv_pushMsg h1 hst hact1 ?_ ?_
      · intro hp
        rw [hp] at hfull2 ⊢
        rw [sweepExpired_max now MsgPriority.low s]
        omega
      · intro hp
        rw [hp] at hfull2 ⊢
        rw [sweepExpired_max now MsgPriority.medium s]
        omega
  · rw [if_neg hfull]
    refine inv_pushMsg h hst hact ?_ ?_ <;> intro hp <;> rw [hp] at hfull <;> omega

/-- `add_message` preserves the invariant: rejected admissions leave the
state alone and accepted ones go through `_add_message_internal`. -/
theorem inv_addMessage {s : SchedState} {m : Msg} (h : Inv s)
    (hst : m.status = .queued) (now : Nat) :
    Inv (addMessage now m s).1 := by
  unfold addMessage
  by_cases h1 : (m.messageId == "" || decide (m.bandwidthRequired ≤ 0)) = true
  · rw [if_pos h1]
    exact h
  · rw [if_neg h1]
    by_cases h2 : s.active.contains m.messageId = true
    · rw [if_pos h2]
      exact h
    · rw [if_neg h2]
      by_cases h3 : (s.degraded && !m.priority.isHighClass) = true
      · rw [if_pos h3]
        exact h
      · rw [if_neg h3]
        have hact : m.messageId ∉ s.active := by
          intro hmem
          exact h2 (by simpa using hmem)
        have hi := inv_addMessageInternal h hst hact now
        rcases hr : addMessageInternal now m s with ⟨s2, b⟩
        rw [hr] at hi
        cases b <;> exact hi

/-- Popping an entry, marking it with a terminal status and keeping it in
the active index preserves the invariant. -/
theorem inv_afterPopKeep {s : SchedState} {p : MsgPriority} {e : QEntry}
    {rest : List QEntry} (h : Inv s) (hpop : popMin (s.queues p) = some (e, rest))
    (stv : MsgStatus) :
    Inv { s with queues := updateQ p rest s.queues,
                 statuses := setStatus e.mid stv s.statuses } := by
  have hmeme : e ∈ s.queues p := popMin_mem hpop
  have hmemq : ∀ p2, ∀ e2 ∈ updateQ p rest s.queues p2, e2 ∈ s.queues p2 := by
    intro p2 e2 he2
    by_cases hp2 : p2 = p
    · subst hp2
      rw [updateQ_same] at he2
      exact (popMin_perm hpop).symm.subset (List.mem_cons_of_mem _ he2)
    · rwa [updateQ_other hp2] at he2
  have hNotE : ∀ p2, ∀ e2 ∈ updateQ p rest s.queues p2, e2.mid ≠ e.mid := by
    intro p2 e2 he2
    by_cases hp2 : p2 = p
    · subst hp2
      rw [updateQ_same] at he2
      intro hc
      exact popMin_mid_not_mem_rest (h.nodupQueue _) hpop
        (hc ▸ List.mem_map_of_mem QEntry.mid he2)
    · rw [updateQ_other hp2] at he2
      exact h.disjointQueues p2 _ hp2 e2 he2 e hmeme
  constructor <;> dsimp only
  · intro p2 e2 he2
    exact h.purity p2 e2 (hmemq p2 e2 he2)
  · intro p2 e2 he2
    exact h.indexed p2 e2 (hmemq p2 e2 he2)
  · intro p2 e2 he2
    rw [lookupStatus_set_other (hNotE p2 e2 he2)]
    exact h.queuedStatus p2 e2 (hmemq p2 e2 he2)
  · intro p2
    by_cases hp2 : p2 = p
    · subst hp2
      rw [updateQ_same]
      have hperm := (popMin_perm hpop).map QEntry.mid
      have := hperm.nodup_iff.mp (h.nodupQueue _)
      exact (List.nodup_cons.mp this).2
    · rw [updateQ_other hp2]
      exact h.nodupQueue p2
  · intro p1 p2 hne e1 he1 e2 he2
    exact h.disjointQueues p1 p2 hne e1 (hmemq p1 e1 he1) e2 (hmemq p2 e2 he2)
  · intro mid st hlk hna
    by_cases hmid : mid = e.mid
    · subst hmid
      exact absurd (h.indexed p e hmeme) hna
    · rw [lookupStatus_set_other hmid] at hlk
      exact h.absentTerminal mid st hlk hna
  · by_cases hp : MsgPriority.low = p
    · subst hp
      rw [updateQ_same]
      have := (popMin_perm hpop).length_eq
      simp only [List.length_cons] at this
      have := h.lowBound
      omega
    · rw [updateQ_other hp]
      exact h.lowBound
  · by_cases hp : MsgPriority.medium = p
    · subst hp
      rw [updateQ_same]
      have := (popMin_perm hpop).length_eq
      simp only [List.length_cons] at this
      have := h.medBound
      omega
    · rw [updateQ_other hp]
      exact h.medBound

/-- Popping an entry, marking it with a terminal status and removing it
from the active index preserves the invariant. -/
theorem inv_afterPopRemove {s : SchedState} {p : MsgPriority} {e : QEntry}
    {rest : List QEntry} (h : Inv s) (hpop : popMin (s.queues p) = some (e, rest))
    (stv : MsgStatus) (hterm : stv.isTerminal = true) :
    Inv { s with queues := updateQ p rest s.queues,
                 statuses := setStatus e.mid stv s.statuses,
                 active := s.active.filter (fun mid => !(mid == e.mid)) } := by
  have hmeme : e ∈ s.queues p := popMin_mem hpop
  have hmemq : ∀ p2, ∀ e2 ∈ updateQ p rest s.queues p2, e2 ∈ s.queues p2 := by
    intro p2 e2 he2
    by_cases hp2 : p2 = p
    · subst hp2
      rw [updateQ_same] at he2
      exact (popMin_perm hpop).symm.subset (List.mem_cons_of_mem _ he2)
    · rwa [updateQ_other hp2] at he2
  have hNotE : ∀ p2, ∀ e2 ∈ updateQ p rest s.queues p2, e2.mid ≠ e.mid := by
    intro p2 e2 he2
    by_cases hp2 : p2 = p
    · subst hp2
      rw [updateQ_same] at he2
      intro hc
      exact popMin_mid_not_mem_rest (h.nodupQueue _) hpop
        (hc ▸ List.mem_map_of_mem QEntry.mid he2)
    · rw [updateQ_other hp2] at he2
      exact h.disjointQueues p2 _ hp2 e2 he2 e hmeme
  constructor <;> dsimp only
  · intro p2 e2 he2
    exact h.purity p2 e2 (hmemq p2 e2 he2)
  · intro p2 e2 he2
    refine List.mem_filter.mpr ⟨h.indexed p2 e2 (hmemq p2 e2 he2), ?_⟩
    simp only [Bool.not_eq_true', beq_eq_false_iff_ne, ne_eq]
    exact hNotE p2 e2 he2
  · intro p2 e2 he2
    rw [lookupStatus_set_other (hNotE p2 e2 he2)]
    exact h.queuedStatus p2 e2 (hmemq p2 e2 he2)
  · intro p2
    by_cases hp2 : p2 = p
    · subst hp2
      rw [updateQ_same]
      have hperm := (popMin_perm hpop).map QEntry.mid
      have := hperm.nodup_iff.mp (h.nodupQueue _)
      exact (List.nodup_cons.mp this).2
    · rw [updateQ_other hp2]
      exact h.nodupQueue p2
  · intro p1 p2 hne e1 he1 e2 he2
    exact h.disjointQueues p1 p2 hne e1 (hmemq p1 e1 he1) e2 (hmemq p2 e2 he2)
  · intro mid st hlk hna
    by_cases hmid : mid = e.mid
    · subst hmid
      rw [lookupStatus_set_self] at hlk
      cases hlk
      exact hterm
    · rw [lookupStatus_set_other hmid] at hlk
      refine h.absentTerminal mid st hlk ?_
      intro hmem
      refine hna (List.mem_filter.mpr ⟨hmem, ?_⟩)
      simp only [Bool.not_eq_true', beq_eq_false_iff_ne, ne_eq]
      exact hmid
  · by_cases hp : MsgPriority.low = p
    · subst hp
      rw [updateQ_same]
      have := (popMin_perm hpop).length_eq
      simp only [List.length_cons] at this
      have := h.lowBound
      omega
    · rw [updateQ_other hp]
      exact h.lowBound
  · by_cases hp : MsgPriority.medium = p
    · subst hp
      rw [updateQ_same]
      have := (popMin_perm hpop).length_eq
      simp only [List.length_cons] at this
      have := h.medBound
      omega
    · rw [updateQ_other hp]
      exact h.medBound

/-- The dispatch step preserves the invariant on all five processing
paths. -/
theorem inv_processNext {s : SchedState} (h : Inv s) (now : Nat) (p : MsgPriority)
    (oc : ProcOutcome) : Inv (processNext now p oc s).1 := by
  unfold processNext
  cases hpop : popMin (s.queues p) with
  | none => exact h
  | some pr =>
    obtain ⟨e, rest⟩ := pr
    dsimp only
    by_cases hexp : isExpired now e = true
    · rw [if_pos hexp]
      exact inv_afterPopKeep h hpop .timeout
    · rw [if_neg hexp]
      cases oc
      · exact inv_afterPopRemove h hpop .completed rfl
      · exact inv_afterPopRemove h hpop .failed rfl
      · exact inv_afterPopKeep h hpop .timeout
      · exact inv_afterPopKeep h hpop .failed

/-- The memory-pressure purge preserves the invariant: it only removes
COMPLETED/FAILED (terminal) ids from the active index, and queued ids
survive the filter. -/
theorem inv_pressureCleanup {s : SchedState} (h : Inv s) : Inv (pressureCleanup s) := by
  constructor <;> dsimp only [pressureCleanup]
  · exact h.purity
  · intro p e he
    refine List.mem_filter.mpr ⟨h.indexed p e he, ?_⟩
    rw [h.queuedStatus p e he]
  · exact h.queuedStatus
  · exact h.nodupQueue
  · exact h.disjointQueues
  · intro mid st hlk hna
    by_cases hmem : mid ∈ s.active
    · by_cases hpred : (match lookupStatus s.statuses mid with
        | some .completed => false
        | some .failed => false
        | _ => true) = true
      · exact absurd (List.mem_filter.mpr ⟨hmem, hpred⟩) hna
      · rw [hlk] at hpred
        cases st <;> first | (exact absurd rfl hpred) | rfl
    · exact h.absentTerminal mid st hlk hmem
  · exact h.lowBound
  · exact h.medBound

/-- A fresh scheduler satisfies the invariant trivially. -/
theorem inv_initState (cap : Nat) : Inv (initState cap) := by
  constructor <;> dsimp only [initState]
  · intro p e he
    cases he
  · intro p e he
    cases he
  · intro p e he
    cases he
  · intro p
    exact List.nodup_nil
  · intro p1 p2 _ e1 he1
    cases he1
  · intro mid st hlk
    cases hlk
  · exact Nat.zero_le _
  · exact Nat.zero_le _

/-- Every reachable scheduler state satisfies the invariant. -/
theorem reachable_inv {cap : Nat} : ∀ {s : SchedState}, Reachable cap s → Inv s := by
  intro s h
  induction h with
  | init => exact inv_initState cap
  | step hr hst ih =>
    cases hst with
    | add now m s2 hq => exact inv_addMessage ih hq now
    | process now p oc s2 => exact inv_processNext ih now p oc
    | sweep now p s2 => exact inv_sweepExpired ih now p
    | pressure s2 => exact inv_pressureCleanup ih
    | setDegraded b s2 =>
      exact ⟨ih.purity, ih.indexed, ih.queuedStatus, ih.nodupQueue,
        ih.disjointQueues, ih.absentTerminal, ih.lowBound, ih.medBound⟩

end Sched

namespace Sched

/-- Claim C3 (amended).  `_process_next_message(p)` pops ONLY from the
queue of class `p`: whenever that queue is non-empty, a message is
dispatched (return value True) and the popped entry is the
`Message.__lt__`-minimum of THAT queue — maximum priority value, ties to
earliest `creation_timestamp`, within the serviced class.  No other
queue is consulted, so cross-class strict priority is not enforced. -/
theorem pop_returns_min_of_its_queue (now : Nat) (p : MsgPriority) (oc : ProcOutcome)
    (s : SchedState) (e : QEntry) (rest : List QEntry)
    (hpop : popMin (s.queues p) = some (e, rest)) :
    (processNext now p oc s).2 = true ∧
    ∀ e2 ∈ s.queues p, qLt e2 e = false := by
  constructor
  · unfold processNext
    rw [hpop]
    dsimp only
    by_cases hexp : isExpired now e = true
    · rw [if_pos hexp]
    · rw [if_neg hexp]
      cases oc <;> rfl
  · exact popMin_min hpop

/-- Witness for C3's amended theorem: in a MEDIUM queue holding a newer
entry in front of an older one, the pop returns the older entry and the
dispatch step reports a processed message. -/
theorem pop_returns_min_witness :
    popMin (exTwoState.queues MsgPriority.medium) = some (exEntryOld, [exEntryNew]) ∧
    (processNext 0 MsgPriority.medium ProcOutcome.success exTwoState).2 = true ∧
    (∀ e2 ∈ exTwoState.queues MsgPriority.medium, qLt e2 exEntryOld = false) :=
  ⟨by decide,
    (pop_returns_min_of_its_queue 0 MsgPriority.medium ProcOutcome.success exTwoState
      exEntryOld [exEntryNew] (by decide)).1,
    (pop_returns_min_of_its_queue 0 MsgPriority.medium ProcOutcome.success exTwoState
      exEntryOld [exEntryNew] (by decide)).2⟩

/-- Claim C3 (counterexample to the claim as stated).  In a reachable
state whose CRITICAL queue is non-empty, the LOW dispatch loop pops and
dispatches the LOW message: the returned message has priority value
0 < 3, so the popped message does NOT have the maximum priority key
among all four queues, and a lower-class message is dispatched while a
strictly higher class queue is non-empty. -/
theorem low_popped_while_critical_queued :
    Reachable 10 exCrossState ∧
    exCrossState.queues MsgPriority.critical ≠ [] ∧
    (∀ e ∈ exCrossState.queues MsgPriority.critical, e.prio.val = 3) ∧
    popMin (exCrossState.queues MsgPriority.low) = some (exMsgLow.entry, []) ∧
    exMsgLow.entry.prio.val = 0 ∧
    (processNext 2 MsgPriority.low ProcOutcome.success exCrossState).2 = true := by
  refine ⟨Reachable.step (Reachable.step Reachable.init
      (Step.add 0 exMsgCrit (initState 10) rfl))
      (Step.add 1 exMsgLow (addMessage 0 exMsgCrit (initState 10)).1 rfl),
    by decide, ?_, by decide, rfl, by decide⟩
  intro e he
  have hq : exCrossState.queues MsgPriority.critical = [exMsgCrit.entry] := by decide
  rw [hq] at he
  have he2 : e = exMsgCrit.entry := by simpa using he
  subst he2
  rfl

/-- Claim C4 (amended).  In every reachable scheduler state: a message
held in a class queue has status QUEUED and is in the active index; a
message id is held by at most one queue entry over all four queues; and
a message absent from the active index has terminal status.  (The
converse of the claim fails: a message can be in NO queue while still in
the active index, with status PROCESSING mid-dispatch or — through the
expired/timeout/exception paths — with a terminal status.) -/
theorem queued_message_location_invariant (cap : Nat) (s : SchedState)
    (h : Reachable cap s) :
    (∀ p, ∀ e ∈ s.queues p, lookupStatus s.statuses e.mid = some MsgStatus.queued ∧
      e.mid ∈ s.active) ∧
    (∀ p1 p2, ∀ e1 ∈ s.queues p1, ∀ e2 ∈ s.queues p2,
      e1.mid = e2.mid → p1 = p2 ∧ e1 = e2) ∧
    (∀ mid st, lookupStatus s.statuses mid = some st → mid ∉ s.active →
      st.isTerminal = true) := by
  have hi := reachable_inv h
  refine ⟨fun p e he => ⟨hi.queuedStatus p e he, hi.indexed p e he⟩, ?_,
    hi.absentTerminal⟩
  intro p1 p2 e1 he1 e2 he2 hmid
  by_cases hp : p1 = p2
  · subst hp
    exact ⟨rfl, List.inj_on_of_nodup_map (hi.nodupQueue p1) he1 he2 hmid⟩
  · exact absurd hmid (hi.disjointQueues p1 p2 hp e1 he1 e2 he2)

/-- Witness for C4's amended theorem at a concrete reachable state. -/
theorem queued_message_location_witness :
    Reachable 2 exC4WitState ∧
    (∀ mid st, lookupStatus exC4WitState.statuses mid = some st →
      mid ∉ exC4WitState.active → st.isTerminal = true) :=
  have hr : Reachable 2 exC4WitState :=
    Reachable.step Reachable.init (Step.add 0 exMsgA (initState 2) rfl)
  ⟨hr, (queued_message_location_invariant 2 exC4WitState hr).2.2⟩

/-- Claim C4 (counterexample to the claim as stated).  A reachable state
in which message "a" reached the terminal status TIMEOUT (its dispatch
hit the `asyncio.TimeoutError` path, which returns before the
active-index removal of line 787) yet is still in the active index and
in no queue: neither disjunct of the claim holds for it. -/
theorem timed_out_message_stuck_in_index :
    Reachable 2 exStuckState ∧
    lookupStatus exStuckState.statuses "a" = some MsgStatus.timeout ∧
    MsgStatus.timeout.isTerminal = true ∧
    "a" ∈ exStuckState.active ∧
    (∀ p, "a" ∉ (exStuckState.queues p).map QEntry.mid) ∧
    ¬((∃ p, "a" ∈ (exStuckState.queues p).map QEntry.mid ∧
        lookupStatus exStuckState.statuses "a" = some MsgStatus.queued) ∨
      ("a" ∉ exStuckState.active)) := by
  refine ⟨Reachable.step (Reachable.step Reachable.init
      (Step.add 0 exMsgA (initState 2) rfl))
      (Step.process 1 MsgPriority.medium ProcOutcome.timedOut
        (addMessage 0 exMsgA (initState 2)).1),
    by decide, rfl, by decide, ?_, ?_⟩
  · intro p
    cases p <;> decide
  · rintro (⟨p, hp, _⟩ | hna)
    · revert hp
      cases p <;> decide
    · exact hna (by decide)

end Sched

namespace Sched

/-- Case analysis of the `_make_room_for_priority` scan: either every
candidate queue is empty and nothing happens (the function returns
False), or the first non-empty candidate queue loses its `heappop`
minimum, marked DROPPED and removed from the active index. -/
theorem makeRoomGo_cases (s : SchedState) : ∀ qs : List MsgPriority,
    ((∀ q ∈ qs, s.queues q = []) ∧ makeRoomGo s qs = (s, false)) ∨
    ∃ q qs1 qs2 e rest, qs = qs1 ++ q :: qs2 ∧ (∀ q2 ∈ qs1, s.queues q2 = []) ∧
      popMin (s.queues q) = some (e, rest) ∧
      makeRoomGo s qs =
        ({ s with queues := updateQ q rest s.queues,
                  statuses := setStatus e.mid .dropped s.statuses,
                  active := s.active.filter (fun mid => !(mid == e.mid)) }, true) := by
  intro qs
  induction qs with
  | nil => exact Or.inl ⟨fun q hq => absurd hq (List.not_mem_nil q), rfl⟩
  | cons q qs ih =>
    cases hpop : popMin (s.queues q) with
    | none =>
      have hqe : s.queues q = [] := popMin_none.mp hpop
      rcases ih with ⟨hall, heq⟩ | ⟨q2, qs1, qs2, e, rest, hsplit, hempty, hpop2, heq⟩
      · left
        refine ⟨?_, ?_⟩
        · intro q2 hq2
          rcases List.mem_cons.mp hq2 with rfl | h2
          · exact hqe
          · exact hall q2 h2
        · simp only [makeRoomGo, hpop]
          exact heq
      · right
        refine ⟨q2, q :: qs1, qs2, e, rest, by rw [hsplit]; rfl, ?_, hpop2, ?_⟩
        · intro q3 hq3
          rcases List.mem_cons.mp hq3 with rfl | h3
          · exact hqe
          · exact hempty q3 h3
        · simp only [makeRoomGo, hpop]
          exact heq
    | some pr =>
      obtain ⟨e, rest⟩ := pr
      right
      exact ⟨q, [], qs, e, rest, rfl, fun q2 hq2 => absurd hq2 (List.not_mem_nil _),
        hpop, by simp only [makeRoomGo, hpop]⟩

/-- Claim C5 (amended).  For every admit whose target queue is still at
capacity after the expiry sweep: a CRITICAL or HIGH message evicts AT
MOST one message — the `heappop` minimum (oldest) of the first non-empty
class strictly below, marked DROPPED and dropped from the index, when
such a class exists — and is then enqueued UNCONDITIONALLY: the admit
succeeds and the target queue exceeds max_queue_size by one; only a
MEDIUM or LOW admit still at capacity is rejected (QueueFull), leaving
the swept state.  (So CRITICAL/HIGH queues are NOT bounded by
max_queue_size; LOW/MEDIUM queues are — see the reachability
invariant.) -/
theorem admit_at_capacity_spec (now : Nat) (m : Msg) (s : SchedState)
    (hfull : s.maxQueueSize ≤
      ((sweepExpired now m.priority s).1.queues m.priority).length) :
    (m.priority.isHighClass = true →
      (addMessageInternal now m s).2 = true ∧
      (addMessageInternal now m s).1.queues m.priority =
        m.entry ::
          (makeRoom m.priority (sweepExpired now m.priority s).1).1.queues m.priority ∧
      s.maxQueueSize < ((addMessageInternal now m s).1.queues m.priority).length ∧
      ((∀ q ∈ lowerPriosBelow m.priority,
          (sweepExpired now m.priority s).1.queues q = []) ∧
        (makeRoom m.priority (sweepExpired now m.priority s).1).1 =
          (sweepExpired now m.priority s).1 ∨
       ∃ q qs1 qs2 e rest,
         lowerPriosBelow m.priority = qs1 ++ q :: qs2 ∧
         (∀ q2 ∈ qs1, (sweepExpired now m.priority s).1.queues q2 = []) ∧
         popMin ((sweepExpired now m.priority s).1.queues q) = some (e, rest) ∧
         (∀ x ∈ (sweepExpired now m.priority s).1.queues q, qLt x e = false) ∧
         (makeRoom m.priority (sweepExpired now m.priority s).1).1 =
           { (sweepExpired now m.priority s).1 with
              queues := updateQ q rest (sweepExpired now m.priority s).1.queues
              statuses := setStatus e.mid .dropped
                (sweepExpired now m.priority s).1.statuses
              active := (sweepExpired now m.priority s).1.active.filter
                (fun mid => !(mid == e.mid)) })) ∧
    (m.priority.isHighClass = false →
      addMessageInternal now m s = ((sweepExpired now m.priority s).1, false)) := by
  have hpre : s.maxQueueSize ≤ (s.queues m.priority).length :=
    le_trans hfull (sweepExpired_queues_len_le now m.priority s m.priority)
  constructor
  · intro hhigh
    have hstep : addMessageInternal now m s =
        (pushMsg m (makeRoom m.priority (sweepExpired now m.priority s).1).1, true) := by
      unfold addMessageInternal
      rw [if_pos hpre]
      dsimp only
      rw [if_pos hfull, if_pos hhigh]
    have hnotmem : m.priority ∉ lowerPriosBelow m.priority := by
      intro hc
      rw [lowerPriosBelow, List.mem_filter] at hc
      simp only [decide_eq_true_eq] at hc
      omega
    have hmr : (makeRoom m.priority (sweepExpired now m.priority s).1).1.queues
        m.priority = (sweepExpired now m.priority s).1.queues m.priority :=
      makeRoomGo_queues_not_mem _ _ _ hnotmem
    refine ⟨by rw [hstep], ?_, ?_, ?_⟩
    · rw [hstep]
      dsimp only [pushMsg]
      rw [updateQ_same]
    · rw [hstep]
      dsimp only [pushMsg]
      rw [updateQ_same, List.length_cons, hmr]
      omega
    · rcases makeRoomGo_cases (sweepExpired now m.priority s).1
        (lowerPriosBelow m.priority) with ⟨hall, heq⟩ |
        ⟨q, qs1, qs2, e, rest, hsplit, hempty, hpop2, heq⟩
      · left
        exact ⟨hall, by rw [show makeRoom m.priority (sweepExpired now m.priority s).1 =
          makeRoomGo (sweepExpired now m.priority s).1 (lowerPriosBelow m.priority)
          from rfl, heq]⟩
      · right
        exact ⟨q, qs1, qs2, e, rest, hsplit, hempty, hpop2, popMin_min hpop2,
          by rw [show makeRoom m.priority (sweepExpired now m.priority s).1 =
            makeRoomGo (sweepExpired now m.priority s).1 (lowerPriosBelow m.priority)
            from rfl, heq]⟩
  · intro hlow2
    unfold addMessageInternal
    rw [if_pos hpre]
    dsimp only
    rw [if_pos hfull, if_neg (by rw [hlow2]; exact Bool.false_ne_true)]

/-- Witness for C5's amended theorem: the capacity-1 scheduler with a
full CRITICAL queue admits the CRITICAL message anyway. -/
theorem admit_at_capacity_witness :
    exC5State.maxQueueSize ≤
      ((sweepExpired 2 exMsgC1.priority exC5State).1.queues exMsgC1.priority).length ∧
    (addMessageInternal 2 exMsgC1 exC5State).2 = true :=
  have hfull : exC5State.maxQueueSize ≤
      ((sweepExpired 2 exMsgC1.priority exC5State).1.queues exMsgC1.priority).length :=
    by decide
  ⟨hfull, ((admit_at_capacity_spec 2 exMsgC1 exC5State hfull).1 rfl).1⟩

/-- Claim C5 (counterexample to the claim as stated).  Admitting the
CRITICAL message "c9" into the full capacity-1 CRITICAL queue is NOT
rejected with QueueFull: the LOW message "l0" is dropped (which does not
make room in the CRITICAL queue) and "c9" is pushed anyway, so the
CRITICAL queue holds 2 > 1 = max_queue_size messages. -/
theorem critical_admit_overflows_and_drops_low :
    exC5State.maxQueueSize = 1 ∧
    (addMessageInternal 2 exMsgC1 exC5State).2 = true ∧
    ((addMessageInternal 2 exMsgC1 exC5State).1.queues MsgPriority.critical).length
      = 2 ∧
    lookupStatus (addMessageInternal 2 exMsgC1 exC5State).1.statuses "l0" =
      some MsgStatus.dropped ∧
    "l0" ∉ (addMessageInternal 2 exMsgC1 exC5State).1.active :=
  ⟨rfl, by decide, by decide, by decide, by decide⟩

end Sched

namespace Sched

/-- Claim C8.  Every rejected admit is reported synchronously (a typed
result, never a partial enqueue) and leaves every class queue, the
active-message index and the status table unchanged; and an admit whose
(valid) `message_id` is already in the active index is rejected as a
duplicate, leaving the previously admitted message untouched.  The only
rejection path that could mutate state — QueueFull after the expiry
sweep — cannot: on reachable states a LOW/MEDIUM queue is at most at
capacity, so a still-full queue means the sweep removed nothing. -/
theorem rejected_admit_leaves_state_unchanged (cap now : Nat) (m : Msg)
    (s : SchedState) (hre : Reachable cap s)
    (hrej : (addMessage now m s).2 ≠ AddResult.admitted) :
    (∀ p, (addMessage now m s).1.queues p = s.queues p) ∧
    (addMessage now m s).1.active = s.active ∧
    (addMessage now m s).1.statuses = s.statuses ∧
    (m.messageId ∈ s.active → m.messageId ≠ "" → 0 < m.bandwidthRequired →
      (addMessage now m s).2 = AddResult.duplicateId) := by
  have hi := reachable_inv hre
  by_cases h1 : (m.messageId == "" || decide (m.bandwidthRequired ≤ 0)) = true
  · have heq : addMessage now m s = (s, .invalidParams) := by
      unfold addMessage
      rw [if_pos h1]
    rw [heq]
    refine ⟨fun p => rfl, rfl, rfl, ?_⟩
    intro _ hne hbw
    simp only [Bool.or_eq_true, beq_iff_eq, decide_eq_true_eq] at h1
    rcases h1 with h1 | h1
    · exact absurd h1 hne
    · omega
  · by_cases h2 : s.active.contains m.messageId = true
    · have heq : addMessage now m s = (s, .duplicateId) := by
        unfold addMessage
        rw [if_neg h1, if_pos h2]
      rw [heq]
      exact ⟨fun p => rfl, rfl, rfl, fun _ _ _ => rfl⟩
    · have hnmem : m.messageId ∉ s.active := fun hmem => h2 (by simpa using hmem)
      by_cases h3 : (s.degraded && !m.priority.isHighClass) = true
      · have heq : addMessage now m s = (s, .degradedDrop) := by
          unfold addMessage
          rw [if_neg h1, if_neg h2, if_pos h3]
        rw [heq]
        exact ⟨fun p => rfl, rfl, rfl, fun hmem _ _ => absurd hmem hnmem⟩
      · rcases hint : addMessageInternal now m s with ⟨s2, b⟩
        have heq : addMessage now m s =
            (match (s2, b) with
              | (s2, true) => (s2, AddResult.admitted)
              | (s2, false) => (s2, AddResult.queueFull)) := by
          unfold addMessage
          rw [if_neg h1, if_neg h2, if_neg h3, hint]
        cases b with
        | true =>
          rw [heq] at hrej
          exact absurd rfl hrej
        | false =>
          -- the QueueFull path: show the swept state is s itself
          have hs2 : s2 = s := by
            unfold addMessageInternal at hint
            by_cases hful : s.maxQueueSize ≤ (s.queues m.priority).length
            · rw [if_pos hful] at hint
              dsimp only at hint
              by_cases hful2 : s.maxQueueSize ≤
                  ((sweepExpired now m.priority s).1.queues m.priority).length
              · rw [if_pos hful2] at hint
                by_cases hhigh : m.priority.isHighClass = true
                · rw [if_pos hhigh] at hint
                  cases hint
                · rw [if_neg hhigh] at hint
                  cases hint
                  rcases sweepExpired_eq_or_lt now m.priority s with heqs | hlt
                  · exact heqs
                  · exfalso
                    have hbound : (s.queues m.priority).length ≤ s.maxQueueSize := by
                      cases hp : m.priority
                      · rw [hp] at hhigh
                        exact absurd rfl hhigh
                      · rw [hp] at hhigh
                        exact absurd rfl hhigh
                      · exact hi.medBound
                      · exact hi.lowBound
                    omega
              · rw [if_neg hful2] at hint
                cases hint
            · rw [if_neg hful] at hint
              cases hint
          subst hs2
          rw [heq]
          exact ⟨fun p => rfl, rfl, rfl, fun hmem _ _ => absurd hmem hnmem⟩

/-- Witness for C8 at a concrete reachable state: the full capacity-1
MEDIUM queue rejects a second MEDIUM admit with no state change. -/
theorem rejected_admit_witness :
    Reachable 1 exC8State ∧
    (addMessage 1 exMsgB exC8State).2 ≠ AddResult.admitted ∧
    (∀ p, (addMessage 1 exMsgB exC8State).1.queues p = exC8State.queues p) ∧
    (addMessage 1 exMsgB exC8State).1.active = exC8State.active :=
  have hr : Reachable 1 exC8State :=
    Reachable.step Reachable.init (Step.add 0 exMsgA (initState 1) rfl)
  have hrej : (addMessage 1 exMsgB exC8State).2 ≠ AddResult.admitted := by decide
  ⟨hr, hrej,
    (rejected_admit_leaves_state_unchanged 1 1 exMsgB exC8State hr hrej).1,
    (rejected_admit_leaves_state_unchanged 1 1 exMsgB exC8State hr hrej).2.1⟩

end Sched
